import Mathlib

/-!
NFTL ECC (`rt-thread/components/drivers/nftl/nftl_ecc.c`)

A shallow embedding of the 3-byte-per-256-byte Hamming code of the NFTL driver
and proofs of its contract.

Conventions of the embedding:

* A byte buffer is a function `Nat → Nat` from offsets to byte values; a C pointer
  into a buffer is an offset.  `IsBytes d` says that every cell holds a value
  below 256.
* Values of type `rt_uint8_t` are natural numbers; every assignment that can leave
  the 8-bit range in C carries an explicit `% 256`.
* `for` loops with a constant bound are folds over `List.range`; `while` loops take
  a fuel argument and answer `none` when the fuel runs out.
-/

namespace NftlEcc

/-! ## Data model -/

/-- A byte buffer: offset ↦ value. -/
abbrev Buf := Nat → Nat

/-- Every cell of the buffer holds an `rt_uint8_t` value. -/
def IsBytes (d : Buf) : Prop := ∀ a, d a < 256

/-- The two caller-owned buffers a call works on: the data and the stored codes. -/
structure Bufs where
  data : Buf
  code : Buf

/-- Store `v` at offset `a`. -/
def Buf.set (d : Buf) (a v : Nat) : Buf := fun x => if x = a then v else d x

/-- The buffer `d` with bit `k` of the byte at offset `a` flipped. -/
def flipBit (d : Buf) (a k : Nat) : Buf := Buf.set d a (d a ^^^ (1 <<< k))

abbrev Hamming_ERROR_SINGLEBIT : Nat := 1
abbrev Hamming_ERROR_ECC : Nat := 2
abbrev Hamming_ERROR_MULTIPLEBITS : Nat := 3

/-! ## `CountBitsInByte` -/

/-- The loop `while (byte > 0) { if (byte & 1) count++; byte >>= 1; }`.
`none` means the fuel ran out before the loop condition became false. -/
def CountBitsInByte.loop : Nat → Nat → Nat → Option Nat
  | 0, byte, count => if byte > 0 then none else some count
  | fuel + 1, byte, count =>
    if byte > 0 then
      CountBitsInByte.loop fuel (byte >>> 1)
        (if byte &&& 1 ≠ 0 then (count + 1) % 256 else count)
    else some count

/-- `CountBitsInByte(byte)`: the argument is converted to `rt_uint8_t`, so eight
iterations always suffice (see `CountBitsInByte_loop_fuel`). -/
def CountBitsInByte (byte : Nat) : Nat :=
  (CountBitsInByte.loop 8 (byte % 256) 0).getD 0

/-! ## `Compute256` -/

/-- Locals of the first loop of `Compute256`. -/
structure LineState where
  columnSum : Nat
  evenLineCode : Nat
  oddLineCode : Nat

/-- Body of `for (i = 0; i < 256; i++)` in `Compute256`. -/
def Compute256.lineStep (data : Buf) (p : Nat) (s : LineState) (i : Nat) : LineState :=
  let columnSum := s.columnSum ^^^ data (p + i)
  if CountBitsInByte (data (p + i)) &&& 1 = 1 then
    { columnSum := columnSum
      evenLineCode := (s.evenLineCode ^^^ (255 - i)) % 256
      oddLineCode := (s.oddLineCode ^^^ i) % 256 }
  else
    { s with columnSum := columnSum }

/-- Locals of the second loop of `Compute256`. -/
structure ColumnState where
  columnSum : Nat
  evenColumnCode : Nat
  oddColumnCode : Nat

/-- Body of `for (i = 0; i < 8; i++)` in `Compute256`. -/
def Compute256.columnStep (s : ColumnState) (i : Nat) : ColumnState :=
  if s.columnSum &&& 1 ≠ 0 then
    { columnSum := s.columnSum >>> 1
      evenColumnCode := (s.evenColumnCode ^^^ (7 - i)) % 256
      oddColumnCode := (s.oddColumnCode ^^^ i) % 256 }
  else
    { s with columnSum := s.columnSum >>> 1 }

/-- Variables of the interleaving loop of `Compute256`. -/
structure PackState where
  code0 : Nat
  code1 : Nat
  code2 : Nat
  oddLineCode : Nat
  evenLineCode : Nat
  oddColumnCode : Nat
  evenColumnCode : Nat

/-- Body of `for (i = 0; i < 4; i++)` in `Compute256`. -/
def Compute256.packStep (s : PackState) (_i : Nat) : PackState :=
  let code0 := (s.code0 <<< 2) % 256
  let code1 := (s.code1 <<< 2) % 256
  let code2 := (s.code2 <<< 2) % 256
  let code0 := if s.oddLineCode &&& 0x80 ≠ 0 then code0 ||| 2 else code0
  let code0 := if s.evenLineCode &&& 0x80 ≠ 0 then code0 ||| 1 else code0
  let code1 := if s.oddLineCode &&& 0x08 ≠ 0 then code1 ||| 2 else code1
  let code1 := if s.evenLineCode &&& 0x08 ≠ 0 then code1 ||| 1 else code1
  let code2 := if s.oddColumnCode &&& 0x04 ≠ 0 then code2 ||| 2 else code2
  let code2 := if s.evenColumnCode &&& 0x04 ≠ 0 then code2 ||| 1 else code2
  { code0 := code0, code1 := code1, code2 := code2
    oddLineCode := (s.oddLineCode <<< 1) % 256
    evenLineCode := (s.evenLineCode <<< 1) % 256
    oddColumnCode := (s.oddColumnCode <<< 1) % 256
    evenColumnCode := (s.evenColumnCode <<< 1) % 256 }

/-- The assignment `code[j] = (~(rt_uint32_t)code[j])` into an `rt_uint8_t`. -/
def Compute256.invert (c : Nat) : Nat := (4294967295 - c) % 256

/-- State after the first loop of `Compute256` on the block at offset `p`. -/
def Compute256.lines (data : Buf) (p : Nat) : LineState :=
  (List.range 256).foldl (Compute256.lineStep data p) ⟨0, 0, 0⟩

/-- State after the second loop of `Compute256`. -/
def Compute256.columns (columnSum : Nat) : ColumnState :=
  (List.range 8).foldl Compute256.columnStep ⟨columnSum, 0, 0⟩

/-- State after the third loop of `Compute256`. -/
def Compute256.pack (oddLineCode evenLineCode oddColumnCode evenColumnCode : Nat) :
    PackState :=
  (List.range 4).foldl Compute256.packStep
    ⟨0, 0, 0, oddLineCode, evenLineCode, oddColumnCode, evenColumnCode⟩

/-- `Compute256(data + p, code)`: the three bytes written to `code[0..2]`. -/
def Compute256 (data : Buf) (p : Nat) : Nat × Nat × Nat :=
  let l := Compute256.lines data p
  let c := Compute256.columns l.columnSum
  let k := Compute256.pack l.oddLineCode l.evenLineCode c.oddColumnCode c.evenColumnCode
  (Compute256.invert k.code0, Compute256.invert k.code1, Compute256.invert k.code2)

/-! ## `Verify256` -/

/-- `CountBitsInCode256(code)`, with the `unsigned char` result. -/
def CountBitsInCode256 (code : Nat × Nat × Nat) : Nat :=
  (CountBitsInByte code.1 + CountBitsInByte code.2.1 + CountBitsInByte code.2.2) % 256

/-- The syndrome `correctionCode` of `Verify256`. -/
def Verify256.correctionCode (m : Bufs) (data originalCode : Nat) : Nat × Nat × Nat :=
  let computedCode := Compute256 m.data data
  (computedCode.1 ^^^ m.code originalCode,
   computedCode.2.1 ^^^ m.code (originalCode + 1),
   computedCode.2.2 ^^^ m.code (originalCode + 2))

/-- The byte index recovered from the syndrome in the single-bit branch. -/
def Verify256.byteIndex (cc : Nat × Nat × Nat) : Nat :=
  let byte := cc.1 &&& 0x80
  let byte := byte ||| ((cc.1 <<< 1) &&& 0x40)
  let byte := byte ||| ((cc.1 <<< 2) &&& 0x20)
  let byte := byte ||| ((cc.1 <<< 3) &&& 0x10)
  let byte := byte ||| ((cc.2.1 >>> 4) &&& 0x08)
  let byte := byte ||| ((cc.2.1 >>> 3) &&& 0x04)
  let byte := byte ||| ((cc.2.1 >>> 2) &&& 0x02)
  let byte := byte ||| ((cc.2.1 >>> 1) &&& 0x01)
  byte

/-- The bit index recovered from the syndrome in the single-bit branch. -/
def Verify256.bitIndex (cc : Nat × Nat × Nat) : Nat :=
  let bit := (cc.2.2 >>> 5) &&& 0x04
  let bit := bit ||| ((cc.2.2 >>> 4) &&& 0x02)
  let bit := bit ||| ((cc.2.2 >>> 3) &&& 0x01)
  bit

/-- `Verify256(data + p, originalCode + c)`: the return value and the buffers
after the call. -/
def Verify256 (m : Bufs) (data originalCode : Nat) : Nat × Bufs :=
  let correctionCode := Verify256.correctionCode m data originalCode
  if correctionCode.1 = 0 ∧ correctionCode.2.1 = 0 ∧ correctionCode.2.2 = 0 then
    (0, m)
  else if CountBitsInCode256 correctionCode = 11 then
    let byte := Verify256.byteIndex correctionCode
    let bit := Verify256.bitIndex correctionCode
    (Hamming_ERROR_SINGLEBIT,
      { m with data := Buf.set m.data (data + byte)
                          ((m.data (data + byte) ^^^ (1 <<< bit)) % 256) })
  else if CountBitsInCode256 correctionCode = 1 then
    (Hamming_ERROR_ECC, m)
  else
    (Hamming_ERROR_MULTIPLEBITS, m)

/-! ## `nftl_ecc_verify256` -/

/-- The tail of `nftl_ecc_verify256` after its loop. `RT_MTD_EOK` and
`RT_MTD_EECC_CORRECT` come from a header outside this file and are parameters. -/
def nftl_ecc_verify256.finish (RT_MTD_EOK RT_MTD_EECC_CORRECT : Int) (result : Int) : Int :=
  let result := if result = Hamming_ERROR_SINGLEBIT then -RT_MTD_EECC_CORRECT else result
  let result := if result = 0 then RT_MTD_EOK else result
  result

/-- The `while (size > 0)` loop of `nftl_ecc_verify256` followed by its tail.
`size` is an `rt_uint32_t`; `none` means the fuel ran out inside the loop. -/
def nftl_ecc_verify256.loop (RT_MTD_EOK RT_MTD_EECC_CORRECT : Int) :
    Nat → Bufs → Nat → Nat → Nat → Int → Option (Int × Bufs)
  | 0, m, _, size, _, result =>
    if size > 0 then none
    else some (nftl_ecc_verify256.finish RT_MTD_EOK RT_MTD_EECC_CORRECT result, m)
  | fuel + 1, m, data, size, code, result =>
    if size > 0 then
      let r := Verify256 m data code
      let error : Int := (r.1 : Int)
      if error = Hamming_ERROR_SINGLEBIT then
        nftl_ecc_verify256.loop RT_MTD_EOK RT_MTD_EECC_CORRECT fuel r.2 (data + 256)
          ((size + 4294967296 - 256) % 4294967296) (code + 3) Hamming_ERROR_SINGLEBIT
      else if error ≠ 0 then
        some (error, r.2)
      else
        nftl_ecc_verify256.loop RT_MTD_EOK RT_MTD_EECC_CORRECT fuel r.2 (data + 256)
          ((size + 4294967296 - 256) % 4294967296) (code + 3) result
    else some (nftl_ecc_verify256.finish RT_MTD_EOK RT_MTD_EECC_CORRECT result, m)

/-- `nftl_ecc_verify256(data, size, code)` run with the given fuel. -/
def nftl_ecc_verify256 (RT_MTD_EOK RT_MTD_EECC_CORRECT : Int) (fuel : Nat) (m : Bufs)
    (size : Nat) : Option (Int × Bufs) :=
  nftl_ecc_verify256.loop RT_MTD_EOK RT_MTD_EECC_CORRECT fuel m 0 (size % 4294967296) 0 0

/-! ## `nftl_ecc_compute256` -/

/-- The call `Compute256(pucData, puCode)` seen from its caller: the three code bytes
of the block at `pucData` are stored at `puCode[0..2]`; nothing else is written. -/
def Compute256.store (m : Bufs) (pucData puCode : Nat) : Bufs :=
  let code := Compute256 m.data pucData
  ⟨m.data,
    Buf.set (Buf.set (Buf.set m.code puCode code.1) (puCode + 1) code.2.1) (puCode + 2)
      code.2.2⟩

/-- The `while (dwSize > 0)` loop of `nftl_ecc_compute256`. `dwSize` is an
`rt_uint32_t`; `none` means the fuel ran out inside the loop. -/
def nftl_ecc_compute256.loop : Nat → Bufs → Nat → Nat → Nat → Option Bufs
  | 0, m, _, dwSize, _ => if dwSize > 0 then none else some m
  | fuel + 1, m, pucData, dwSize, puCode =>
    if dwSize > 0 then
      nftl_ecc_compute256.loop fuel (Compute256.store m pucData puCode) (pucData + 256)
        ((dwSize + 4294967296 - 256) % 4294967296) (puCode + 3)
    else some m

/-- `nftl_ecc_compute256(pucData, dwSize, puCode)` run with the given fuel. -/
def nftl_ecc_compute256 (fuel : Nat) (m : Bufs) (dwSize : Nat) : Option Bufs :=
  nftl_ecc_compute256.loop fuel m 0 (dwSize % 4294967296) 0

/-! ## Auxiliary definitions used by the proofs -/

/-- Eight bits packed into a byte, most significant first. -/
def pk (b7 b6 b5 b4 b3 b2 b1 b0 : Bool) : Nat :=
  (bif b7 then 128 else 0) ^^^ (bif b6 then 64 else 0) ^^^ (bif b5 then 32 else 0) ^^^
  (bif b4 then 16 else 0) ^^^ (bif b3 then 8 else 0) ^^^ (bif b2 then 4 else 0) ^^^
  (bif b1 then 2 else 0) ^^^ (bif b0 then 1 else 0)

/-- One round of the interleaving loop seen from a single code byte. -/
def packByte (c : Nat) (a b : Bool) : Nat :=
  let c := (c <<< 2) % 256
  let c := bif a then c ||| 2 else c
  bif b then c ||| 1 else c

/-- The 8-bit left shift `x <<= 1`. -/
def shl8 (x : Nat) : Nat := (x <<< 1) % 256

/-- XOR of `f 0, …, f (n-1)`. -/
def xorFold (f : Nat → Nat) : Nat → Nat
  | 0 => 0
  | n + 1 => xorFold f n ^^^ f n

/-- Boolean XOR of `g 0, …, g (n-1)`. -/
def bxorFold (g : Nat → Bool) : Nat → Bool
  | 0 => false
  | n + 1 => xor (bxorFold g n) (g n)

/-- The test `(CountBitsInByte(x) & 1) == 1` of `Compute256`. -/
def oddByte (x : Nat) : Bool := decide (CountBitsInByte x &&& 1 = 1)

/-- Contribution of byte `i` of the block at `p` to `evenLineCode`. -/
def evenTerm (d : Buf) (p i : Nat) : Nat := bif oddByte (d (p + i)) then 255 - i else 0

/-- Contribution of byte `i` of the block at `p` to `oddLineCode`. -/
def oddTerm (d : Buf) (p i : Nat) : Nat := bif oddByte (d (p + i)) then i else 0

/-- First code byte before inversion, from the two line accumulators. -/
def rawLine0 (e o : Nat) : Nat :=
  pk (o.testBit 7) (e.testBit 7) (o.testBit 6) (e.testBit 6)
     (o.testBit 5) (e.testBit 5) (o.testBit 4) (e.testBit 4)

/-- Second code byte before inversion, from the two line accumulators. -/
def rawLine1 (e o : Nat) : Nat :=
  pk (o.testBit 3) (e.testBit 3) (o.testBit 2) (e.testBit 2)
     (o.testBit 1) (e.testBit 1) (o.testBit 0) (e.testBit 0)

/-- XOR of the bits of `cs` at the positions `k < 8` whose bit `j` equals `v`. -/
def colPar (cs j : Nat) (v : Bool) : Bool :=
  bxorFold (fun k => (k.testBit j == v) && cs.testBit k) 8

/-- Third code byte before inversion, from the column sum. -/
def rawColumn (cs : Nat) : Nat :=
  pk (colPar cs 2 true) (colPar cs 2 false) (colPar cs 1 true) (colPar cs 1 false)
     (colPar cs 0 true) (colPar cs 0 false) false false

/-- Bytewise XOR of two 3-byte codes. -/
def xor3 (a b : Nat × Nat × Nat) : Nat × Nat × Nat :=
  (a.1 ^^^ b.1, a.2.1 ^^^ b.2.1, a.2.2 ^^^ b.2.2)

/-- The three bytes `code[c], code[c+1], code[c+2]` of a code buffer. -/
def readCode (code : Buf) (c : Nat) : Nat × Nat × Nat := (code c, code (c + 1), code (c + 2))

/-- The change of the code caused by flipping bit `k` of byte `b` of a block. -/
def syndrome (b k : Nat) : Nat × Nat × Nat :=
  (rawLine0 (255 - b) b, rawLine1 (255 - b) b, rawColumn (1 <<< k))

/-- The 3-byte code `t` with bit `k` of byte `i` flipped (`i < 3`). -/
def flipCodeBit (t : Nat × Nat × Nat) (i k : Nat) : Nat × Nat × Nat :=
  if i = 0 then (t.1 ^^^ (1 <<< k), t.2.1, t.2.2)
  else if i = 1 then (t.1, t.2.1 ^^^ (1 <<< k), t.2.2)
  else (t.1, t.2.1, t.2.2 ^^^ (1 <<< k))

/-- A sample data buffer of three blocks (and beyond), for concrete instances. -/
def sampleData : Buf := fun a => (a * 7 + a / 5) % 256

/-- The codes of the first three blocks of `sampleData`, stored contiguously. -/
def sampleCode : Buf := fun a => [0, 51, 243, 207, 240, 255, 89, 101, 171].getD a 0

/-- Number of set bits among bits 0..7 of `x`. -/
def bitCount (x : Nat) : Nat := ((List.range 8).filter fun j => x.testBit j).length

/-- XOR of the eight bits of a byte. -/
def byteBitsXor (x : Nat) : Bool := bxorFold (fun k => x.testBit k) 8

/-- Line parity of the block at `p`: XOR of all bits of every byte whose index `i < 256`
has bit `j` equal to `v` (`v = true`: the odd parity `O_j`, `v = false`: the even
parity `E_j`). -/
def lineParity (d : Buf) (p j : Nat) (v : Bool) : Bool :=
  bxorFold (fun i => (i.testBit j == v) && byteBitsXor (d (p + i))) 256

/-- Column parity of the block at `p`: XOR over all 256 bytes of the data bits at the bit
positions `k < 8` whose bit `j` equals `v` (`v = true`: `OC_j`, `v = false`: `EC_j`). -/
def columnParity (d : Buf) (p j : Nat) (v : Bool) : Bool :=
  bxorFold (fun i => bxorFold (fun k => (k.testBit j == v) && (d (p + i)).testBit k) 8) 256

/-- Classification of block `j` of a multi-block input: the value `Verify256` returns for
data bytes `256j .. 256j+255` against code bytes `3j .. 3j+2`. -/
def blockClass (m : Bufs) (j : Nat) : Nat := (Verify256 m (256 * j) (3 * j)).1

/-- The buffers `m2` hold the same codes as `m1` and the same data from offset `a` on. -/
def AgreeFrom (m1 m2 : Bufs) (a : Nat) : Prop :=
  m2.code = m1.code ∧ ∀ x, a ≤ x → m2.data x = m1.data x

/-- Three blocks: two data bits of the first damaged, the third with one flipped bit. -/
def damagedData : Buf := flipBit (flipBit (flipBit sampleData 10 0) 20 1) (512 + 5) 3

/-- The codes of `sampleData` with one bit of the second block's code flipped. -/
def damagedCode : Buf := Buf.set sampleCode 4 241

/-- One round of `size -= 256` on the `rt_uint32_t` size counter of the two wrappers. -/
def sizeStep (size : Nat) : Nat := (size + 4294967296 - 256) % 4294967296

/-- The size counter after `k` rounds, starting from `size`. -/
def sizeAfter (size k : Nat) : Nat := sizeStep^[k] size

/-- Byte offset as the specification words it: upper four bits from bits 7,6,5,4 of
syndrome byte 0, lower four bits from bits 3,2,1,0 of syndrome byte 1. -/
def specByteIndex (cc : Nat × Nat × Nat) : Nat :=
  pk (cc.1.testBit 7) (cc.1.testBit 6) (cc.1.testBit 5) (cc.1.testBit 4)
     (cc.2.1.testBit 3) (cc.2.1.testBit 2) (cc.2.1.testBit 1) (cc.2.1.testBit 0)

/-- Bit offset as the specification words it: the 3-bit index formed by bits 5,4,3 of
syndrome byte 2. -/
def specBitIndex (cc : Nat × Nat × Nat) : Nat :=
  pk false false false false false (cc.2.2.testBit 5) (cc.2.2.testBit 4) (cc.2.2.testBit 3)

/-- Byte offset read from the odd-parity bits: bits 7,5,3,1 of syndrome byte 0, then
bits 7,5,3,1 of syndrome byte 1. -/
def oddByteIndex (cc : Nat × Nat × Nat) : Nat :=
  pk (cc.1.testBit 7) (cc.1.testBit 5) (cc.1.testBit 3) (cc.1.testBit 1)
     (cc.2.1.testBit 7) (cc.2.1.testBit 5) (cc.2.1.testBit 3) (cc.2.1.testBit 1)

/-- Bit offset read from the odd-parity bits: bits 7,5,3 of syndrome byte 2. -/
def oddBitIndex (cc : Nat × Nat × Nat) : Nat :=
  pk false false false false false (cc.2.2.testBit 7) (cc.2.2.testBit 5) (cc.2.2.testBit 3)

/-- Flip bit `q` of the codeword made of the block at `p` (positions `0 .. 2047`: bit
`q % 8` of data byte `q / 8`) and of its three code bytes at `c` (positions
`2048 .. 2071`: bit `(q - 2048) % 8` of code byte `(q - 2048) / 8`). -/
def flipPos (m : Bufs) (p c q : Nat) : Bufs :=
  if q < 2048 then ⟨flipBit m.data (p + q / 8) (q % 8), m.code⟩
  else ⟨m.data, flipBit m.code (c + (q - 2048) / 8) ((q - 2048) % 8)⟩

/-- State of the scan of `nftl_ecc_verify256` when it reaches block `j` of the input `m`:
the codes and the data from block `j` on are untouched, and every earlier block holds
what `Verify256` made of it. -/
def ScanInv (m m1 : Bufs) (j : Nat) : Prop :=
  m1.code = m.code ∧ (∀ x, 256 * j ≤ x → m1.data x = m.data x) ∧
  ∀ i, i < j → ∀ x, 256 * i ≤ x → x < 256 * (i + 1) →
    m1.data x = (Verify256 m (256 * i) (3 * i)).2.data x

/-- Bytewise XOR of two buffers. -/
def xorBuf (a b : Buf) : Buf := fun x => a x ^^^ b x

/-! ## The interleaving loop, bit by bit -/

set_option maxRecDepth 100000

theorem packByte4 : ∀ a0 b0 a1 b1 a2 b2 a3 b3 : Bool,
    packByte (packByte (packByte (packByte 0 a0 b0) a1 b1) a2 b2) a3 b3
      = pk a0 b0 a1 b1 a2 b2 a3 b3 := by decide

theorem range4 : List.range 4 = [0, 1, 2, 3] := by decide

theorem packStep_code0 (s : PackState) (i : Nat) :
    (Compute256.packStep s i).code0 =
      packByte s.code0 (decide (s.oddLineCode &&& 0x80 ≠ 0))
        (decide (s.evenLineCode &&& 0x80 ≠ 0)) := by
  simp only [Compute256.packStep, packByte, Bool.cond_decide]

theorem packStep_code1 (s : PackState) (i : Nat) :
    (Compute256.packStep s i).code1 =
      packByte s.code1 (decide (s.oddLineCode &&& 0x08 ≠ 0))
        (decide (s.evenLineCode &&& 0x08 ≠ 0)) := by
  simp only [Compute256.packStep, packByte, Bool.cond_decide]

theorem packStep_code2 (s : PackState) (i : Nat) :
    (Compute256.packStep s i).code2 =
      packByte s.code2 (decide (s.oddColumnCode &&& 0x04 ≠ 0))
        (decide (s.evenColumnCode &&& 0x04 ≠ 0)) := by
  simp only [Compute256.packStep, packByte, Bool.cond_decide]

theorem packStep_oddLineCode (s : PackState) (i : Nat) :
    (Compute256.packStep s i).oddLineCode = shl8 s.oddLineCode := rfl

theorem packStep_evenLineCode (s : PackState) (i : Nat) :
    (Compute256.packStep s i).evenLineCode = shl8 s.evenLineCode := rfl

theorem packStep_oddColumnCode (s : PackState) (i : Nat) :
    (Compute256.packStep s i).oddColumnCode = shl8 s.oddColumnCode := rfl

theorem packStep_evenColumnCode (s : PackState) (i : Nat) :
    (Compute256.packStep s i).evenColumnCode = shl8 s.evenColumnCode := rfl

theorem pack_code0 (o e oc ec : Nat) :
    (Compute256.pack o e oc ec).code0 =
      pk (decide (o &&& 0x80 ≠ 0)) (decide (e &&& 0x80 ≠ 0))
         (decide (shl8 o &&& 0x80 ≠ 0)) (decide (shl8 e &&& 0x80 ≠ 0))
         (decide (shl8 (shl8 o) &&& 0x80 ≠ 0)) (decide (shl8 (shl8 e) &&& 0x80 ≠ 0))
         (decide (shl8 (shl8 (shl8 o)) &&& 0x80 ≠ 0))
         (decide (shl8 (shl8 (shl8 e)) &&& 0x80 ≠ 0)) := by
  rw [Compute256.pack, range4]
  simp only [List.foldl, packStep_code0, packStep_oddLineCode, packStep_evenLineCode]
  exact packByte4 _ _ _ _ _ _ _ _

theorem pack_code1 (o e oc ec : Nat) :
    (Compute256.pack o e oc ec).code1 =
      pk (decide (o &&& 0x08 ≠ 0)) (decide (e &&& 0x08 ≠ 0))
         (decide (shl8 o &&& 0x08 ≠ 0)) (decide (shl8 e &&& 0x08 ≠ 0))
         (decide (shl8 (shl8 o) &&& 0x08 ≠ 0)) (decide (shl8 (shl8 e) &&& 0x08 ≠ 0))
         (decide (shl8 (shl8 (shl8 o)) &&& 0x08 ≠ 0))
         (decide (shl8 (shl8 (shl8 e)) &&& 0x08 ≠ 0)) := by
  rw [Compute256.pack, range4]
  simp only [List.foldl, packStep_code1, packStep_oddLineCode, packStep_evenLineCode]
  exact packByte4 _ _ _ _ _ _ _ _

theorem pack_code2 (o e oc ec : Nat) :
    (Compute256.pack o e oc ec).code2 =
      pk (decide (oc &&& 0x04 ≠ 0)) (decide (ec &&& 0x04 ≠ 0))
         (decide (shl8 oc &&& 0x04 ≠ 0)) (decide (shl8 ec &&& 0x04 ≠ 0))
         (decide (shl8 (shl8 oc) &&& 0x04 ≠ 0)) (decide (shl8 (shl8 ec) &&& 0x04 ≠ 0))
         (decide (shl8 (shl8 (shl8 oc)) &&& 0x04 ≠ 0))
         (decide (shl8 (shl8 (shl8 ec)) &&& 0x04 ≠ 0)) := by
  rw [Compute256.pack, range4]
  simp only [List.foldl, packStep_code2, packStep_oddColumnCode, packStep_evenColumnCode]
  exact packByte4 _ _ _ _ _ _ _ _

/-- The tests of the interleaving loop read bits 7..4 (byte 0) and 3..0 (byte 1)
of a line accumulator. -/
theorem lineTests : ∀ x < 256,
    decide (x &&& 0x80 ≠ 0) = x.testBit 7 ∧ decide (shl8 x &&& 0x80 ≠ 0) = x.testBit 6 ∧
    decide (shl8 (shl8 x) &&& 0x80 ≠ 0) = x.testBit 5 ∧
    decide (shl8 (shl8 (shl8 x)) &&& 0x80 ≠ 0) = x.testBit 4 ∧
    decide (x &&& 0x08 ≠ 0) = x.testBit 3 ∧ decide (shl8 x &&& 0x08 ≠ 0) = x.testBit 2 ∧
    decide (shl8 (shl8 x) &&& 0x08 ≠ 0) = x.testBit 1 ∧
    decide (shl8 (shl8 (shl8 x)) &&& 0x08 ≠ 0) = x.testBit 0 := by decide!

/-- The tests of the interleaving loop read bits 2..0 of a column accumulator; the
fourth round reads a bit that the shifts have filled with zero. -/
theorem columnTests : ∀ x < 256,
    decide (x &&& 0x04 ≠ 0) = x.testBit 2 ∧ decide (shl8 x &&& 0x04 ≠ 0) = x.testBit 1 ∧
    decide (shl8 (shl8 x) &&& 0x04 ≠ 0) = x.testBit 0 ∧
    decide (shl8 (shl8 (shl8 x)) &&& 0x04 ≠ 0) = false := by decide!

/-! ## The bit counter never runs out of fuel -/

/-- Eight rounds of the loop of `CountBitsInByte` finish for every byte value. -/
theorem CountBitsInByte_loop_fuel : ∀ x < 256, (CountBitsInByte.loop 8 x 0).isSome = true := by
  decide!

/-! ## The line loop as three XOR sums -/

theorem xor_lt_256 {a b : Nat} (ha : a < 256) (hb : b < 256) : a ^^^ b < 256 := by
  have h : a ^^^ b < 2 ^ 8 := Nat.xor_lt_two_pow (by omega) (by omega)
  omega

theorem xorFold_lt (f : Nat → Nat) :
    ∀ n, (∀ i, i < n → f i < 256) → xorFold f n < 256
  | 0, _ => by simp [xorFold]
  | n + 1, h => by
    simp only [xorFold]
    exact xor_lt_256 (xorFold_lt f n fun i hi => h i (by omega)) (h n (by omega))

theorem xorFold_congr (f g : Nat → Nat) :
    ∀ n, (∀ i, i < n → f i = g i) → xorFold f n = xorFold g n
  | 0, _ => rfl
  | n + 1, h => by
    simp only [xorFold]
    rw [xorFold_congr f g n fun i hi => h i (by omega), h n (by omega)]

/-- Changing one summand by `δ` changes the XOR sum by `δ`. -/
theorem xorFold_update (f g : Nat → Nat) (b δ : Nat) (hne : ∀ i, i ≠ b → g i = f i)
    (hb : g b = f b ^^^ δ) : ∀ n, b < n → xorFold g n = xorFold f n ^^^ δ
  | 0, h => by omega
  | n + 1, h => by
    simp only [xorFold]
    by_cases hbn : b = n
    · subst hbn
      rw [xorFold_congr g f b fun i hi => hne i (by omega), hb, Nat.xor_assoc]
    · rw [xorFold_update f g b δ hne hb n (by omega), hne n (fun h => hbn h.symm)]
      simp only [Nat.xor_assoc, Nat.xor_comm δ]

theorem testBit_xorFold (f : Nat → Nat) (j : Nat) :
    ∀ n, (xorFold f n).testBit j = bxorFold (fun i => (f i).testBit j) n
  | 0 => by simp [xorFold, bxorFold]
  | n + 1 => by simp [xorFold, bxorFold, Nat.testBit_xor, testBit_xorFold f j n]

theorem evenTerm_lt (d : Buf) (p i : Nat) : evenTerm d p i < 256 := by
  unfold evenTerm; cases oddByte (d (p + i)) <;> simp
  omega

theorem oddTerm_lt (d : Buf) (p i : Nat) (hi : i < 256) : oddTerm d p i < 256 := by
  unfold oddTerm; cases oddByte (d (p + i)) <;> simp
  omega

theorem lineStep_eq (d : Buf) (p : Nat) (s : LineState) (i : Nat) (hi : i < 256)
    (he : s.evenLineCode < 256) (ho : s.oddLineCode < 256) :
    Compute256.lineStep d p s i =
      ⟨s.columnSum ^^^ d (p + i), s.evenLineCode ^^^ evenTerm d p i,
        s.oddLineCode ^^^ oddTerm d p i⟩ := by
  unfold Compute256.lineStep evenTerm oddTerm oddByte
  by_cases h : CountBitsInByte (d (p + i)) &&& 1 = 1
  · have h3 : s.evenLineCode ^^^ (255 - i) < 256 := xor_lt_256 he (by omega)
    have h4 : s.oddLineCode ^^^ i < 256 := xor_lt_256 ho hi
    rw [if_pos h]
    simp only [decide_eq_true h, cond_true, Nat.mod_eq_of_lt h3, Nat.mod_eq_of_lt h4]
  · rw [if_neg h]
    simp only [decide_eq_false h, cond_false, Nat.xor_zero]

theorem lines_fold (d : Buf) (p : Nat) :
    ∀ n, n ≤ 256 → (List.range n).foldl (Compute256.lineStep d p) ⟨0, 0, 0⟩ =
      ⟨xorFold (fun i => d (p + i)) n, xorFold (evenTerm d p) n, xorFold (oddTerm d p) n⟩
  | 0, _ => rfl
  | n + 1, h => by
    have h1 := xorFold_lt (evenTerm d p) n fun i _ => evenTerm_lt d p i
    have h2 := xorFold_lt (oddTerm d p) n fun i hi => oddTerm_lt d p i (by omega)
    rw [List.range_succ, List.foldl_append, lines_fold d p n (by omega)]
    simp only [List.foldl]
    rw [lineStep_eq d p _ n (by omega) h1 h2]
    simp only [xorFold]

theorem lines_eq (d : Buf) (p : Nat) :
    Compute256.lines d p =
      ⟨xorFold (fun i => d (p + i)) 256, xorFold (evenTerm d p) 256,
        xorFold (oddTerm d p) 256⟩ :=
  lines_fold d p 256 (Nat.le_refl _)

/-! ## `Compute256` in closed form -/

theorem invert_pk : ∀ b7 b6 b5 b4 b3 b2 b1 b0 : Bool,
    Compute256.invert (pk b7 b6 b5 b4 b3 b2 b1 b0) = 255 ^^^ pk b7 b6 b5 b4 b3 b2 b1 b0 := by
  decide

theorem pk_lt : ∀ b7 b6 b5 b4 b3 b2 b1 b0 : Bool, pk b7 b6 b5 b4 b3 b2 b1 b0 < 256 := by
  decide

theorem pack_lines (o e oc ec : Nat) (ho : o < 256) (he : e < 256) :
    (Compute256.pack o e oc ec).code0 = rawLine0 e o ∧
    (Compute256.pack o e oc ec).code1 = rawLine1 e o := by
  obtain ⟨o7, o6, o5, o4, o3, o2, o1, o0⟩ := lineTests o ho
  obtain ⟨e7, e6, e5, e4, e3, e2, e1, e0⟩ := lineTests e he
  rw [pack_code0, pack_code1, o7, o6, o5, o4, o3, o2, o1, o0, e7, e6, e5, e4, e3, e2, e1, e0]
  exact ⟨rfl, rfl⟩

theorem columns_spec : ∀ cs < 256,
    (Compute256.columns cs).oddColumnCode < 256 ∧ (Compute256.columns cs).evenColumnCode < 256 ∧
    pk ((Compute256.columns cs).oddColumnCode.testBit 2)
       ((Compute256.columns cs).evenColumnCode.testBit 2)
       ((Compute256.columns cs).oddColumnCode.testBit 1)
       ((Compute256.columns cs).evenColumnCode.testBit 1)
       ((Compute256.columns cs).oddColumnCode.testBit 0)
       ((Compute256.columns cs).evenColumnCode.testBit 0) false false = rawColumn cs := by
  decide!

theorem pack_column (o e cs : Nat) (hcs : cs < 256) :
    (Compute256.pack o e (Compute256.columns cs).oddColumnCode
      (Compute256.columns cs).evenColumnCode).code2 = rawColumn cs := by
  obtain ⟨hoc, hec, h⟩ := columns_spec cs hcs
  obtain ⟨a2, a1, a0, a⟩ := columnTests _ hoc
  obtain ⟨b2, b1, b0, b⟩ := columnTests _ hec
  rw [pack_code2, a2, a1, a0, a, b2, b1, b0, b]
  exact h

/-- The column sum, even and odd line accumulators of the block at `p`. -/
theorem lines_lt (d : Buf) (p : Nat) (hd : IsBytes d) :
    (Compute256.lines d p).columnSum < 256 ∧ (Compute256.lines d p).evenLineCode < 256 ∧
    (Compute256.lines d p).oddLineCode < 256 := by
  rw [lines_eq]
  exact ⟨xorFold_lt _ _ fun i _ => hd (p + i), xorFold_lt _ _ fun i _ => evenTerm_lt d p i,
    xorFold_lt _ _ fun i hi => oddTerm_lt d p i hi⟩

/-- Closed form of `Compute256`: the inverted interleaving of the parities. -/
theorem Compute256_eq (d : Buf) (p : Nat) (hd : IsBytes d) :
    Compute256 d p =
      (255 ^^^ rawLine0 (Compute256.lines d p).evenLineCode (Compute256.lines d p).oddLineCode,
       255 ^^^ rawLine1 (Compute256.lines d p).evenLineCode (Compute256.lines d p).oddLineCode,
       255 ^^^ rawColumn (Compute256.lines d p).columnSum) := by
  obtain ⟨hcs, he, ho⟩ := lines_lt d p hd
  unfold Compute256
  simp only
  rw [(pack_lines _ _ _ _ ho he).1, (pack_lines _ _ _ _ ho he).2, pack_column _ _ _ hcs]
  simp only [rawLine0, rawLine1, rawColumn, invert_pk]

/-! ## Linearity over GF(2) -/

theorem cond_xor (a b : Bool) (K : Nat) :
    (bif xor a b then K else 0) = (bif a then K else 0) ^^^ (bif b then K else 0) := by
  cases a <;> cases b <;> simp

theorem pk_xor (a7 a6 a5 a4 a3 a2 a1 a0 b7 b6 b5 b4 b3 b2 b1 b0 : Bool) :
    pk (xor a7 b7) (xor a6 b6) (xor a5 b5) (xor a4 b4) (xor a3 b3) (xor a2 b2) (xor a1 b1)
      (xor a0 b0) = pk a7 a6 a5 a4 a3 a2 a1 a0 ^^^ pk b7 b6 b5 b4 b3 b2 b1 b0 := by
  simp only [pk, cond_xor]
  ac_rfl

theorem rawLine0_xor (e o y z : Nat) :
    rawLine0 (e ^^^ y) (o ^^^ z) = rawLine0 e o ^^^ rawLine0 y z := by
  simp only [rawLine0, Nat.testBit_xor, pk_xor]

theorem rawLine1_xor (e o y z : Nat) :
    rawLine1 (e ^^^ y) (o ^^^ z) = rawLine1 e o ^^^ rawLine1 y z := by
  simp only [rawLine1, Nat.testBit_xor, pk_xor]

theorem bxorFold_xor (g h : Nat → Bool) :
    ∀ n, bxorFold (fun k => xor (g k) (h k)) n = xor (bxorFold g n) (bxorFold h n)
  | 0 => rfl
  | n + 1 => by
    simp only [bxorFold, bxorFold_xor g h n]
    cases bxorFold g n <;> cases bxorFold h n <;> cases g n <;> cases h n <;> rfl

theorem colPar_xor (x y j : Nat) (v : Bool) :
    colPar (x ^^^ y) j v = xor (colPar x j v) (colPar y j v) := by
  unfold colPar
  rw [← bxorFold_xor]
  congr 1
  funext k
  rw [Nat.testBit_xor]
  cases (k.testBit j == v) <;> cases x.testBit k <;> cases y.testBit k <;> rfl

theorem rawColumn_xor (x y : Nat) : rawColumn (x ^^^ y) = rawColumn x ^^^ rawColumn y := by
  unfold rawColumn
  rw [← pk_xor]
  simp only [colPar_xor]
  rfl

/-! ## Effect of a bit flip on the code -/

theorem oddByte_flip : ∀ x < 256, ∀ k < 8, oddByte (x ^^^ (1 <<< k)) = !oddByte x := by
  decide!

theorem flipBit_same (d : Buf) (a k : Nat) : flipBit d a k a = d a ^^^ (1 <<< k) := by
  simp [flipBit, Buf.set]

theorem flipBit_other (d : Buf) (a k x : Nat) (h : x ≠ a) : flipBit d a k x = d x := by
  simp [flipBit, Buf.set, h]

theorem bit_lt_256 : ∀ k < 8, 1 <<< k < 256 := by decide

theorem IsBytes_flipBit (d : Buf) (a k : Nat) (hd : IsBytes d) (hk : k < 8) :
    IsBytes (flipBit d a k) := by
  intro x
  by_cases h : x = a
  · subst h
    rw [flipBit_same]
    exact xor_lt_256 (hd x) (bit_lt_256 k hk)
  · rw [flipBit_other d a k x h]
    exact hd x

theorem lines_flipBit (d : Buf) (p b k : Nat) (hd : IsBytes d) (hb : b < 256) (hk : k < 8) :
    Compute256.lines (flipBit d (p + b) k) p =
      ⟨(Compute256.lines d p).columnSum ^^^ (1 <<< k),
       (Compute256.lines d p).evenLineCode ^^^ (255 - b),
       (Compute256.lines d p).oddLineCode ^^^ b⟩ := by
  have hodd : oddByte (flipBit d (p + b) k (p + b)) = !oddByte (d (p + b)) := by
    rw [flipBit_same]
    exact oddByte_flip _ (hd _) k hk
  rw [lines_eq, lines_eq]
  congr 1
  · apply xorFold_update _ _ b _ _ _ 256 hb
    · intro i hi
      exact flipBit_other d _ k _ (by omega)
    · exact flipBit_same d _ k
  · apply xorFold_update _ _ b _ _ _ 256 hb
    · intro i hi
      simp only [evenTerm, flipBit_other d (p + b) k (p + i) (by omega)]
    · simp only [evenTerm, hodd]
      cases oddByte (d (p + b)) <;> simp
  · apply xorFold_update _ _ b _ _ _ 256 hb
    · intro i hi
      simp only [oddTerm, flipBit_other d (p + b) k (p + i) (by omega)]
    · simp only [oddTerm, hodd]
      cases oddByte (d (p + b)) <;> simp

theorem xor3_assoc (a b c : Nat × Nat × Nat) : xor3 (xor3 a b) c = xor3 a (xor3 b c) := by
  simp [xor3, Nat.xor_assoc]

theorem xor3_comm (a b : Nat × Nat × Nat) : xor3 a b = xor3 b a := by
  simp [xor3, Nat.xor_comm]

theorem xor3_self (a : Nat × Nat × Nat) : xor3 a a = (0, 0, 0) := by
  simp [xor3]

theorem xor3_zero (a : Nat × Nat × Nat) : xor3 a (0, 0, 0) = a := by
  simp [xor3]

theorem xor3_cancel (a s : Nat × Nat × Nat) : xor3 (xor3 a s) a = s := by
  rw [xor3_comm a s, xor3_assoc, xor3_self, xor3_zero]

/-- Flipping bit `k` of byte `b` of a block changes its code by `syndrome b k`. -/
theorem Compute256_flipBit (d : Buf) (p b k : Nat) (hd : IsBytes d) (hb : b < 256)
    (hk : k < 8) :
    Compute256 (flipBit d (p + b) k) p = xor3 (Compute256 d p) (syndrome b k) := by
  rw [Compute256_eq _ _ (IsBytes_flipBit d _ k hd hk), Compute256_eq d p hd,
    lines_flipBit d p b k hd hb hk]
  simp only [rawLine0_xor, rawLine1_xor, rawColumn_xor, xor3, syndrome, Nat.xor_assoc]

/-! ## `Verify256` by cases on the syndrome -/

theorem correctionCode_eq (m : Bufs) (p c : Nat) :
    Verify256.correctionCode m p c = xor3 (Compute256 m.data p) (readCode m.code c) := rfl

theorem Verify256_zero (m : Bufs) (p c : Nat)
    (h : Verify256.correctionCode m p c = (0, 0, 0)) : Verify256 m p c = (0, m) := by
  unfold Verify256
  simp [h]

theorem Verify256_single (m : Bufs) (p c : Nat)
    (h0 : ¬((Verify256.correctionCode m p c).1 = 0 ∧ (Verify256.correctionCode m p c).2.1 = 0 ∧
      (Verify256.correctionCode m p c).2.2 = 0))
    (h : CountBitsInCode256 (Verify256.correctionCode m p c) = 11) :
    Verify256 m p c =
      (Hamming_ERROR_SINGLEBIT,
        ⟨Buf.set m.data (p + Verify256.byteIndex (Verify256.correctionCode m p c))
            ((m.data (p + Verify256.byteIndex (Verify256.correctionCode m p c)) ^^^
              (1 <<< Verify256.bitIndex (Verify256.correctionCode m p c))) % 256),
          m.code⟩) := by
  unfold Verify256
  simp only [if_neg h0, if_pos h]

theorem Verify256_ecc (m : Bufs) (p c : Nat)
    (h0 : ¬((Verify256.correctionCode m p c).1 = 0 ∧ (Verify256.correctionCode m p c).2.1 = 0 ∧
      (Verify256.correctionCode m p c).2.2 = 0))
    (h : CountBitsInCode256 (Verify256.correctionCode m p c) = 1) :
    Verify256 m p c = (Hamming_ERROR_ECC, m) := by
  unfold Verify256
  have h11 : ¬CountBitsInCode256 (Verify256.correctionCode m p c) = 11 := by omega
  simp only [if_neg h0, if_neg h11, if_pos h]

theorem Verify256_multi (m : Bufs) (p c : Nat)
    (h0 : ¬((Verify256.correctionCode m p c).1 = 0 ∧ (Verify256.correctionCode m p c).2.1 = 0 ∧
      (Verify256.correctionCode m p c).2.2 = 0))
    (h11 : ¬CountBitsInCode256 (Verify256.correctionCode m p c) = 11)
    (h1 : ¬CountBitsInCode256 (Verify256.correctionCode m p c) = 1) :
    Verify256 m p c = (Hamming_ERROR_MULTIPLEBITS, m) := by
  unfold Verify256
  simp only [if_neg h0, if_neg h11, if_neg h1]

theorem syndrome_line : ∀ b < 256,
    CountBitsInByte (rawLine0 (255 - b) b) = 4 ∧ CountBitsInByte (rawLine1 (255 - b) b) = 4 ∧
    Verify256.byteIndex (rawLine0 (255 - b) b, rawLine1 (255 - b) b, 0) = b := by
  decide!

theorem syndrome_column : ∀ k < 8,
    CountBitsInByte (rawColumn (1 <<< k)) = 3 ∧ rawColumn (1 <<< k) ≠ 0 ∧
    Verify256.bitIndex (0, 0, rawColumn (1 <<< k)) = k := by
  decide!

/-- What `Verify256` sees when the syndrome is that of one flipped data bit. -/
theorem syndrome_spec (b k : Nat) (hb : b < 256) (hk : k < 8) :
    ¬((syndrome b k).1 = 0 ∧ (syndrome b k).2.1 = 0 ∧ (syndrome b k).2.2 = 0) ∧
    CountBitsInCode256 (syndrome b k) = 11 ∧
    Verify256.byteIndex (syndrome b k) = b ∧ Verify256.bitIndex (syndrome b k) = k := by
  obtain ⟨l0, l1, lb⟩ := syndrome_line b hb
  obtain ⟨c0, cne, cb⟩ := syndrome_column k hk
  refine ⟨fun h => cne h.2.2, ?_, lb, cb⟩
  simp only [CountBitsInCode256, syndrome, l0, l1, c0]

theorem Buf_set_flipBit (d : Buf) (a k : Nat) (hd : IsBytes d) :
    Buf.set (flipBit d a k) a ((flipBit d a k a ^^^ (1 <<< k)) % 256) = d := by
  funext x
  by_cases h : x = a
  · subst h
    have h2 : (d x ^^^ (1 <<< k)) ^^^ (1 <<< k) = d x := by
      rw [Nat.xor_assoc, Nat.xor_self, Nat.xor_zero]
    simp only [Buf.set, if_true, flipBit_same, h2, Nat.mod_eq_of_lt (hd x)]
  · simp only [Buf.set, if_neg h, flipBit_other d a k x h]

theorem flipCodeBit_spec : ∀ i < 3, ∀ k < 8,
    ¬((flipCodeBit (0, 0, 0) i k).1 = 0 ∧ (flipCodeBit (0, 0, 0) i k).2.1 = 0 ∧
      (flipCodeBit (0, 0, 0) i k).2.2 = 0) ∧
    CountBitsInCode256 (flipCodeBit (0, 0, 0) i k) = 1 := by
  decide!

theorem xor3_flipCodeBit (t : Nat × Nat × Nat) (i k : Nat) :
    xor3 t (flipCodeBit t i k) = flipCodeBit (0, 0, 0) i k := by
  have h : ∀ a x : Nat, a ^^^ (a ^^^ x) = x := fun a x => by
    rw [← Nat.xor_assoc, Nat.xor_self, Nat.zero_xor]
  unfold flipCodeBit xor3
  split_ifs <;> simp [h]

theorem IsBytes_sampleData : IsBytes sampleData := fun _ => Nat.mod_lt _ (by decide)

theorem IsBytes_sampleCode : IsBytes sampleCode := by
  intro a
  unfold sampleCode
  by_cases h : a < 9
  · interval_cases a <;> decide
  · rw [List.getD_eq_default _ _ (by simpa using h)]
    decide

theorem sampleCode_block0 : readCode sampleCode 0 = Compute256 sampleData 0 := by decide!

theorem sampleCode_block1 : readCode sampleCode 3 = Compute256 sampleData 256 := by decide!

theorem sampleCode_block2 : readCode sampleCode 6 = Compute256 sampleData 512 := by decide!

/-! ## Contract of `Verify256` against `Compute256` -/

/-- C1 (single-bit correction). If the stored code is `Compute256` of the block `d` at
offset `p` and bit `k` of byte `b` of that block is then flipped, `Verify256` returns
`Hamming_ERROR_SINGLEBIT` and the data buffer after the call is `d` again. -/
theorem Verify256_corrects_single_bit (d code : Buf) (p c b k : Nat) (hd : IsBytes d)
    (hb : b < 256) (hk : k < 8) (hcode : readCode code c = Compute256 d p) :
    Verify256 ⟨flipBit d (p + b) k, code⟩ p c = (Hamming_ERROR_SINGLEBIT, ⟨d, code⟩) := by
  have hcc : Verify256.correctionCode ⟨flipBit d (p + b) k, code⟩ p c = syndrome b k := by
    rw [correctionCode_eq]
    simp only
    rw [hcode, Compute256_flipBit d p b k hd hb hk, xor3_cancel]
  obtain ⟨h0, h11, hbyte, hbit⟩ := syndrome_spec b k hb hk
  rw [Verify256_single _ p c (by rw [hcc]; exact h0) (by rw [hcc]; exact h11), hcc, hbyte, hbit]
  simp only
  rw [Buf_set_flipBit d (p + b) k hd]

/-- Instance of C1: bit 6 of byte 77 of the second block of `sampleData`. -/
theorem Verify256_corrects_single_bit_witness :
    readCode sampleCode 3 = Compute256 sampleData 256 ∧
    Verify256 ⟨flipBit sampleData (256 + 77) 6, sampleCode⟩ 256 3 =
      (Hamming_ERROR_SINGLEBIT, ⟨sampleData, sampleCode⟩) :=
  ⟨sampleCode_block1,
    Verify256_corrects_single_bit sampleData sampleCode 256 3 77 6 IsBytes_sampleData
      (by decide) (by decide) sampleCode_block1⟩

/-- C2 (round trip). Verifying a block against its own `Compute256` code returns 0 and
leaves the buffers as they were. -/
theorem Verify256_round_trip (d code : Buf) (p c : Nat)
    (hcode : readCode code c = Compute256 d p) :
    Verify256 ⟨d, code⟩ p c = (0, ⟨d, code⟩) := by
  apply Verify256_zero
  rw [correctionCode_eq]
  simp only
  rw [hcode, xor3_self]

/-- Instance of C2: the third block of `sampleData`. -/
theorem Verify256_round_trip_witness :
    readCode sampleCode 6 = Compute256 sampleData 512 ∧
    Verify256 ⟨sampleData, sampleCode⟩ 512 6 = (0, ⟨sampleData, sampleCode⟩) :=
  ⟨sampleCode_block2, Verify256_round_trip sampleData sampleCode 512 6 sampleCode_block2⟩

/-- C3 (code corruption). If the stored code is `Compute256` of the block with one of
its 24 bits flipped (bit `k` of code byte `i`, the two padding bits of byte 2
included), `Verify256` returns `Hamming_ERROR_ECC` and leaves the data unchanged. -/
theorem Verify256_detects_code_corruption (d code : Buf) (p c i k : Nat) (hi : i < 3)
    (hk : k < 8) (hcode : readCode code c = flipCodeBit (Compute256 d p) i k) :
    Verify256 ⟨d, code⟩ p c = (Hamming_ERROR_ECC, ⟨d, code⟩) := by
  have hcc : Verify256.correctionCode ⟨d, code⟩ p c = flipCodeBit (0, 0, 0) i k := by
    rw [correctionCode_eq]
    simp only
    rw [hcode, xor3_flipCodeBit]
  obtain ⟨h0, h1⟩ := flipCodeBit_spec i hi k hk
  exact Verify256_ecc _ p c (by rw [hcc]; exact h0) (by rw [hcc]; exact h1)

/-- Instance of C3: padding bit 0 of code byte 2 of the first block of `sampleData`
(stored 242 instead of 243). -/
theorem Verify256_detects_code_corruption_witness :
    readCode (Buf.set sampleCode 2 242) 0 = flipCodeBit (Compute256 sampleData 0) 2 0 ∧
    Verify256 ⟨sampleData, Buf.set sampleCode 2 242⟩ 0 0 =
      (Hamming_ERROR_ECC, ⟨sampleData, Buf.set sampleCode 2 242⟩) :=
  ⟨by decide!,
    Verify256_detects_code_corruption sampleData (Buf.set sampleCode 2 242) 0 0 2 0
      (by decide) (by decide) (by decide!)⟩

theorem xor_eq_zero_imp {a b : Nat} (h : a ^^^ b = 0) : a = b := by
  have h2 : a ^^^ (a ^^^ b) = a ^^^ 0 := by rw [h]
  rw [← Nat.xor_assoc, Nat.xor_self, Nat.zero_xor, Nat.xor_zero] at h2
  exact h2.symm

theorem syndrome_injective (b1 k1 b2 k2 : Nat) (hb1 : b1 < 256) (hk1 : k1 < 8)
    (hb2 : b2 < 256) (hk2 : k2 < 8)
    (h : xor3 (syndrome b1 k1) (syndrome b2 k2) = (0, 0, 0)) : b1 = b2 ∧ k1 = k2 := by
  have he : syndrome b1 k1 = syndrome b2 k2 := by
    simp only [xor3, Prod.mk.injEq] at h
    exact Prod.ext (xor_eq_zero_imp h.1) (Prod.ext (xor_eq_zero_imp h.2.1) (xor_eq_zero_imp h.2.2))
  obtain ⟨_, _, x1, y1⟩ := syndrome_spec b1 k1 hb1 hk1
  obtain ⟨_, _, x2, y2⟩ := syndrome_spec b2 k2 hb2 hk2
  rw [he] at x1 y1
  exact ⟨x1.symm.trans x2, y1.symm.trans y2⟩

theorem Verify256_fst_ne_zero (m : Bufs) (p c : Nat)
    (h0 : ¬((Verify256.correctionCode m p c).1 = 0 ∧ (Verify256.correctionCode m p c).2.1 = 0 ∧
      (Verify256.correctionCode m p c).2.2 = 0)) : (Verify256 m p c).1 ≠ 0 := by
  unfold Verify256
  simp only [if_neg h0]
  split_ifs <;> simp

/-- C4 (double-bit detection). If the stored code is `Compute256` of the block `d` and
two distinct data bits `(b1, k1) ≠ (b2, k2)` of the block are flipped, `Verify256`
does not return 0. -/
theorem Verify256_detects_double_bit (d code : Buf) (p c b1 k1 b2 k2 : Nat) (hd : IsBytes d)
    (hb1 : b1 < 256) (hk1 : k1 < 8) (hb2 : b2 < 256) (hk2 : k2 < 8)
    (hne : ¬(b1 = b2 ∧ k1 = k2)) (hcode : readCode code c = Compute256 d p) :
    (Verify256 ⟨flipBit (flipBit d (p + b1) k1) (p + b2) k2, code⟩ p c).1 ≠ 0 := by
  have hcc : Verify256.correctionCode ⟨flipBit (flipBit d (p + b1) k1) (p + b2) k2, code⟩ p c
      = xor3 (syndrome b1 k1) (syndrome b2 k2) := by
    rw [correctionCode_eq]
    simp only
    rw [hcode, Compute256_flipBit _ p b2 k2 (IsBytes_flipBit d _ k1 hd hk1) hb2 hk2,
      Compute256_flipBit d p b1 k1 hd hb1 hk1, xor3_assoc (Compute256 d p), xor3_cancel]
  apply Verify256_fst_ne_zero
  rw [hcc]
  intro h
  exact hne (syndrome_injective b1 k1 b2 k2 hb1 hk1 hb2 hk2 (Prod.ext h.1 (Prod.ext h.2.1 h.2.2)))

/-- Instance of C4: bits 0 and 7 of byte 200 of the first block of `sampleData`. -/
theorem Verify256_detects_double_bit_witness :
    (Verify256 ⟨flipBit (flipBit sampleData (0 + 200) 0) (0 + 200) 7, sampleCode⟩ 0 0).1 ≠ 0 :=
  Verify256_detects_double_bit sampleData sampleCode 0 0 200 0 200 7 IsBytes_sampleData
    (by decide) (by decide) (by decide) (by decide) (by decide) sampleCode_block0

/-! ## Classification and frame of `Verify256` -/

theorem CountBitsInByte_eq_bitCount : ∀ x < 256, CountBitsInByte x = bitCount x := by
  decide!

theorem bitCount_le : ∀ x < 256, bitCount x ≤ 8 := by decide!

theorem invert_lt (c : Nat) : Compute256.invert c < 256 := Nat.mod_lt _ (by decide)

theorem Compute256_lt (d : Buf) (p : Nat) :
    (Compute256 d p).1 < 256 ∧ (Compute256 d p).2.1 < 256 ∧ (Compute256 d p).2.2 < 256 :=
  ⟨invert_lt _, invert_lt _, invert_lt _⟩

theorem correctionCode_lt (m : Bufs) (p c : Nat) (hc : IsBytes m.code) :
    (Verify256.correctionCode m p c).1 < 256 ∧ (Verify256.correctionCode m p c).2.1 < 256 ∧
    (Verify256.correctionCode m p c).2.2 < 256 := by
  obtain ⟨h0, h1, h2⟩ := Compute256_lt m.data p
  exact ⟨xor_lt_256 h0 (hc _), xor_lt_256 h1 (hc _), xor_lt_256 h2 (hc _)⟩

theorem CountBitsInCode256_eq (t : Nat × Nat × Nat) (h0 : t.1 < 256) (h1 : t.2.1 < 256)
    (h2 : t.2.2 < 256) :
    CountBitsInCode256 t = bitCount t.1 + bitCount t.2.1 + bitCount t.2.2 := by
  have a0 := bitCount_le _ h0
  have a1 := bitCount_le _ h1
  have a2 := bitCount_le _ h2
  unfold CountBitsInCode256
  rw [CountBitsInByte_eq_bitCount _ h0, CountBitsInByte_eq_bitCount _ h1,
    CountBitsInByte_eq_bitCount _ h2]
  omega

theorem classify_cases (r w : Nat) (Z : Prop) (hZ : Z → w = 0)
    (h : (Z ∧ r = 0) ∨ (¬Z ∧ w = 11 ∧ r = 1) ∨ (¬Z ∧ w ≠ 11 ∧ w = 1 ∧ r = 2) ∨
      (¬Z ∧ w ≠ 11 ∧ w ≠ 1 ∧ r = 3)) :
    (r = 0 ↔ Z) ∧ (r = 1 ↔ w = 11) ∧ (r = 2 ↔ w = 1) ∧ (r = 3 ↔ (¬Z ∧ w ≠ 11 ∧ w ≠ 1)) ∧
    (r = 0 ∨ r = 1 ∨ r = 2 ∨ r = 3) := by
  rcases h with ⟨hz, hr⟩ | ⟨hz, hw, hr⟩ | ⟨hz, hw, hw1, hr⟩ | ⟨hz, hw, hw1, hr⟩
  · have := hZ hz
    refine ⟨⟨fun _ => hz, fun _ => hr⟩, ⟨?_, ?_⟩, ⟨?_, ?_⟩, ⟨?_, ?_⟩, Or.inl hr⟩
    · omega
    · omega
    · omega
    · omega
    · omega
    · exact fun h => absurd hz h.1
  · refine ⟨⟨?_, fun h => absurd h hz⟩, ⟨fun _ => hw, fun _ => hr⟩, ⟨?_, ?_⟩, ⟨?_, ?_⟩,
      Or.inr (Or.inl hr)⟩
    · omega
    · omega
    · omega
    · omega
    · exact fun h => absurd hw h.2.1
  · refine ⟨⟨?_, fun h => absurd h hz⟩, ⟨?_, ?_⟩, ⟨fun _ => hw1, fun _ => hr⟩, ⟨?_, ?_⟩,
      Or.inr (Or.inr (Or.inl hr))⟩
    · omega
    · omega
    · omega
    · omega
    · exact fun h => absurd hw1 h.2.2
  · refine ⟨⟨?_, fun h => absurd h hz⟩, ⟨?_, ?_⟩, ⟨?_, ?_⟩, ⟨fun _ => ⟨hz, hw, hw1⟩, fun _ => hr⟩,
      Or.inr (Or.inr (Or.inr hr))⟩
    · omega
    · omega
    · omega
    · omega
    · omega

/-- C5 (classification procedure). With `s = Verify256.correctionCode` (the bytewise XOR
of `Compute256(data)` and the stored code) and `w` the number of set bits of its three
bytes, `Verify256` returns 0 iff `s` is all zero, 1 iff `w = 11`, 2 iff `w = 1`, 3 in
every other case, and nothing else. -/
theorem Verify256_classification (m : Bufs) (p c : Nat) (hc : IsBytes m.code) :
    Verify256.correctionCode m p c = xor3 (Compute256 m.data p) (readCode m.code c) ∧
    ((Verify256 m p c).1 = 0 ↔ Verify256.correctionCode m p c = (0, 0, 0)) ∧
    ((Verify256 m p c).1 = Hamming_ERROR_SINGLEBIT ↔
      bitCount (Verify256.correctionCode m p c).1 + bitCount (Verify256.correctionCode m p c).2.1
        + bitCount (Verify256.correctionCode m p c).2.2 = 11) ∧
    ((Verify256 m p c).1 = Hamming_ERROR_ECC ↔
      bitCount (Verify256.correctionCode m p c).1 + bitCount (Verify256.correctionCode m p c).2.1
        + bitCount (Verify256.correctionCode m p c).2.2 = 1) ∧
    ((Verify256 m p c).1 = Hamming_ERROR_MULTIPLEBITS ↔
      (Verify256.correctionCode m p c ≠ (0, 0, 0) ∧
       bitCount (Verify256.correctionCode m p c).1 + bitCount (Verify256.correctionCode m p c).2.1
        + bitCount (Verify256.correctionCode m p c).2.2 ≠ 11 ∧
       bitCount (Verify256.correctionCode m p c).1 + bitCount (Verify256.correctionCode m p c).2.1
        + bitCount (Verify256.correctionCode m p c).2.2 ≠ 1)) ∧
    ((Verify256 m p c).1 = 0 ∨ (Verify256 m p c).1 = Hamming_ERROR_SINGLEBIT ∨
      (Verify256 m p c).1 = Hamming_ERROR_ECC ∨
      (Verify256 m p c).1 = Hamming_ERROR_MULTIPLEBITS) := by
  obtain ⟨l0, l1, l2⟩ := correctionCode_lt m p c hc
  have hw := CountBitsInCode256_eq _ l0 l1 l2
  have hz : bitCount 0 = 0 := by decide
  refine ⟨rfl, classify_cases _ _ _ (fun h => by rw [h, hz]) ?_⟩
  by_cases h0 : Verify256.correctionCode m p c = (0, 0, 0)
  · exact Or.inl ⟨h0, by rw [Verify256_zero m p c h0]⟩
  · have h0' : ¬((Verify256.correctionCode m p c).1 = 0 ∧
        (Verify256.correctionCode m p c).2.1 = 0 ∧ (Verify256.correctionCode m p c).2.2 = 0) :=
      fun h => h0 (Prod.ext h.1 (Prod.ext h.2.1 h.2.2))
    by_cases h11 : CountBitsInCode256 (Verify256.correctionCode m p c) = 11
    · exact Or.inr (Or.inl ⟨h0, hw ▸ h11, by rw [Verify256_single m p c h0' h11]⟩)
    · by_cases h1 : CountBitsInCode256 (Verify256.correctionCode m p c) = 1
      · exact Or.inr (Or.inr (Or.inl ⟨h0, hw ▸ h11, hw ▸ h1, by rw [Verify256_ecc m p c h0' h1]⟩))
      · exact Or.inr (Or.inr (Or.inr
          ⟨h0, hw ▸ h11, hw ▸ h1, by rw [Verify256_multi m p c h0' h11 h1]⟩))

/-- Instance of C5: the first block of `sampleData` against its stored code. -/
theorem Verify256_classification_witness :
    (Verify256 ⟨sampleData, sampleCode⟩ 0 0).1 = 0 ↔
      Verify256.correctionCode ⟨sampleData, sampleCode⟩ 0 0 = (0, 0, 0) :=
  (Verify256_classification ⟨sampleData, sampleCode⟩ 0 0 IsBytes_sampleCode).2.1

theorem byteIndex_lt (cc : Nat × Nat × Nat) : Verify256.byteIndex cc < 256 := by
  have h : ∀ x m : Nat, m < 256 → x &&& m < 2 ^ 8 := fun x m hm =>
    Nat.lt_of_le_of_lt Nat.and_le_right (by omega)
  have h2 : Verify256.byteIndex cc < 2 ^ 8 := by
    unfold Verify256.byteIndex
    simp only
    repeat apply Nat.or_lt_two_pow
    all_goals exact h _ _ (by decide)
  omega

theorem bitIndex_lt (cc : Nat × Nat × Nat) : Verify256.bitIndex cc < 8 := by
  have h : ∀ x m : Nat, m < 8 → x &&& m < 2 ^ 3 := fun x m hm =>
    Nat.lt_of_le_of_lt Nat.and_le_right (by omega)
  have h2 : Verify256.bitIndex cc < 2 ^ 3 := by
    unfold Verify256.bitIndex
    simp only
    repeat apply Nat.or_lt_two_pow
    all_goals exact h _ _ (by decide)
  omega

/-- Bits of a byte after `x ^= (1 << k)` stored back into eight bits. -/
theorem testBit_flip (x k j : Nat) (hx : x < 256) (hk : k < 8) :
    ((x ^^^ (1 <<< k)) % 256).testBit j = xor (x.testBit j) (decide (j = k)) := by
  rw [Nat.mod_eq_of_lt (xor_lt_256 hx (bit_lt_256 k hk)), Nat.testBit_xor, Nat.one_shiftLeft,
    Nat.testBit_two_pow]
  by_cases h : k = j
  · subst h; simp
  · have h2 : ¬j = k := fun e => h e.symm
    simp [h, h2]

/-- C6 (mutation frame). For any stored code, `Verify256` changes the data buffer iff it
returns `Hamming_ERROR_SINGLEBIT`; then the new buffer differs from the old one in
exactly one bit `bit < 8` of one byte `byte < 256` of the block; otherwise the data are
unchanged. The code buffer is never changed. -/
theorem Verify256_frame (m : Bufs) (p c : Nat) (hd : IsBytes m.data) :
    ((Verify256 m p c).2.data ≠ m.data ↔ (Verify256 m p c).1 = Hamming_ERROR_SINGLEBIT) ∧
    ((Verify256 m p c).1 = Hamming_ERROR_SINGLEBIT →
      ∃ byte, byte < 256 ∧ ∃ bit, bit < 8 ∧ ∀ a j,
        ((Verify256 m p c).2.data a).testBit j =
          xor ((m.data a).testBit j) (decide (a = p + byte ∧ j = bit))) ∧
    ((Verify256 m p c).1 ≠ Hamming_ERROR_SINGLEBIT → (Verify256 m p c).2.data = m.data) ∧
    (Verify256 m p c).2.code = m.code := by
  have key : ((Verify256 m p c).1 ≠ Hamming_ERROR_SINGLEBIT ∧ (Verify256 m p c).2 = m) ∨
      ((Verify256 m p c).1 = Hamming_ERROR_SINGLEBIT ∧ ∃ byte, byte < 256 ∧ ∃ bit, bit < 8 ∧
        (Verify256 m p c).2 =
          ⟨Buf.set m.data (p + byte) ((m.data (p + byte) ^^^ (1 <<< bit)) % 256), m.code⟩) := by
    by_cases h0 : (Verify256.correctionCode m p c).1 = 0 ∧
        (Verify256.correctionCode m p c).2.1 = 0 ∧ (Verify256.correctionCode m p c).2.2 = 0
    · rw [Verify256_zero m p c (Prod.ext h0.1 (Prod.ext h0.2.1 h0.2.2))]
      exact Or.inl ⟨by simp, rfl⟩
    · by_cases h11 : CountBitsInCode256 (Verify256.correctionCode m p c) = 11
      · rw [Verify256_single m p c h0 h11]
        exact Or.inr ⟨rfl, _, byteIndex_lt _, _, bitIndex_lt _, rfl⟩
      · by_cases h1 : CountBitsInCode256 (Verify256.correctionCode m p c) = 1
        · rw [Verify256_ecc m p c h0 h1]
          exact Or.inl ⟨by simp, rfl⟩
        · rw [Verify256_multi m p c h0 h11 h1]
          exact Or.inl ⟨by simp, rfl⟩
  rcases key with ⟨hr, hm⟩ | ⟨hr, byte, hbyte, bit, hbit, hm⟩
  · rw [hm]
    exact ⟨⟨fun h => absurd rfl h, fun h => absurd h hr⟩, fun h => absurd h hr, fun _ => rfl, rfl⟩
  · have hbits : ∀ a j, ((Verify256 m p c).2.data a).testBit j =
        xor ((m.data a).testBit j) (decide (a = p + byte ∧ j = bit)) := by
      intro a j
      rw [hm]
      simp only [Buf.set]
      by_cases ha : a = p + byte
      · subst ha
        rw [if_pos rfl, testBit_flip _ _ _ (hd _) hbit]
        simp
      · rw [if_neg ha]
        simp [ha]
    refine ⟨⟨fun _ => hr, fun _ h => ?_⟩, fun _ => ⟨byte, hbyte, bit, hbit, hbits⟩,
      fun h => absurd hr h, by rw [hm]⟩
    have h2 := hbits (p + byte) bit
    rw [h] at h2
    simp at h2

/-- Instance of C6: the second block of `sampleData` with a flipped bit. -/
theorem Verify256_frame_witness :
    (Verify256 ⟨flipBit sampleData 300 2, sampleCode⟩ 256 3).2.code = sampleCode :=
  (Verify256_frame ⟨flipBit sampleData 300 2, sampleCode⟩ 256 3
    (IsBytes_flipBit sampleData 300 2 IsBytes_sampleData (by decide))).2.2.2

/-! ## Layout of the code bytes -/

theorem testBit_inv_pk : ∀ b7 b6 b5 b4 b3 b2 b1 b0 : Bool,
    (255 ^^^ pk b7 b6 b5 b4 b3 b2 b1 b0).testBit 7 = !b7 ∧
    (255 ^^^ pk b7 b6 b5 b4 b3 b2 b1 b0).testBit 6 = !b6 ∧
    (255 ^^^ pk b7 b6 b5 b4 b3 b2 b1 b0).testBit 5 = !b5 ∧
    (255 ^^^ pk b7 b6 b5 b4 b3 b2 b1 b0).testBit 4 = !b4 ∧
    (255 ^^^ pk b7 b6 b5 b4 b3 b2 b1 b0).testBit 3 = !b3 ∧
    (255 ^^^ pk b7 b6 b5 b4 b3 b2 b1 b0).testBit 2 = !b2 ∧
    (255 ^^^ pk b7 b6 b5 b4 b3 b2 b1 b0).testBit 1 = !b1 ∧
    (255 ^^^ pk b7 b6 b5 b4 b3 b2 b1 b0).testBit 0 = !b0 := by decide

theorem bxorFold_congr (g h : Nat → Bool) :
    ∀ n, (∀ i, i < n → g i = h i) → bxorFold g n = bxorFold h n
  | 0, _ => rfl
  | n + 1, hh => by
    simp only [bxorFold]
    rw [bxorFold_congr g h n fun i hi => hh i (by omega), hh n (by omega)]

theorem oddByte_eq_byteBitsXor : ∀ x < 256, oddByte x = byteBitsXor x := by decide!

theorem testBit_complement : ∀ i < 256, ∀ j < 8, (255 - i).testBit j = !i.testBit j := by
  decide!

/-- Bit `j` of the odd line accumulator is the odd line parity `O_j`. -/
theorem oddLineCode_testBit (d : Buf) (p j : Nat) (hd : IsBytes d) :
    (Compute256.lines d p).oddLineCode.testBit j = lineParity d p j true := by
  rw [lines_eq]
  simp only
  rw [testBit_xorFold]
  apply bxorFold_congr
  intro i _
  simp only [oddTerm, oddByte_eq_byteBitsXor _ (hd (p + i))]
  cases byteBitsXor (d (p + i)) <;> simp

/-- Bit `j < 8` of the even line accumulator is the even line parity `E_j`. -/
theorem evenLineCode_testBit (d : Buf) (p j : Nat) (hd : IsBytes d) (hj : j < 8) :
    (Compute256.lines d p).evenLineCode.testBit j = lineParity d p j false := by
  rw [lines_eq]
  simp only
  rw [testBit_xorFold]
  apply bxorFold_congr
  intro i hi
  simp only [evenTerm, oddByte_eq_byteBitsXor _ (hd (p + i))]
  cases byteBitsXor (d (p + i))
  · simp
  · simp only [cond_true, testBit_complement i hi j hj]
    cases i.testBit j <;> rfl

/-- C7 (line-parity layout). With `O_j = lineParity d p j true` and
`E_j = lineParity d p j false`, bits 7..0 of `code[0]` are the complements of
`O_7 E_7 O_6 E_6 O_5 E_5 O_4 E_4` and bits 7..0 of `code[1]` the complements of
`O_3 E_3 O_2 E_2 O_1 E_1 O_0 E_0`: for `j < 4`, bit `2j+1` of `code[0]` is `¬O_(j+4)`,
bit `2j` is `¬E_(j+4)`, bit `2j+1` of `code[1]` is `¬O_j` and bit `2j` is `¬E_j`. -/
theorem Compute256_line_layout (d : Buf) (p : Nat) (hd : IsBytes d) (j : Nat) (hj : j < 4) :
    (Compute256 d p).1.testBit (2 * j + 1) = !lineParity d p (j + 4) true ∧
    (Compute256 d p).1.testBit (2 * j) = !lineParity d p (j + 4) false ∧
    (Compute256 d p).2.1.testBit (2 * j + 1) = !lineParity d p j true ∧
    (Compute256 d p).2.1.testBit (2 * j) = !lineParity d p j false := by
  rw [Compute256_eq d p hd]
  simp only [rawLine0, rawLine1]
  obtain ⟨a7, a6, a5, a4, a3, a2, a1, a0⟩ := testBit_inv_pk
    ((Compute256.lines d p).oddLineCode.testBit 7) ((Compute256.lines d p).evenLineCode.testBit 7)
    ((Compute256.lines d p).oddLineCode.testBit 6) ((Compute256.lines d p).evenLineCode.testBit 6)
    ((Compute256.lines d p).oddLineCode.testBit 5) ((Compute256.lines d p).evenLineCode.testBit 5)
    ((Compute256.lines d p).oddLineCode.testBit 4) ((Compute256.lines d p).evenLineCode.testBit 4)
  obtain ⟨b7, b6, b5, b4, b3, b2, b1, b0⟩ := testBit_inv_pk
    ((Compute256.lines d p).oddLineCode.testBit 3) ((Compute256.lines d p).evenLineCode.testBit 3)
    ((Compute256.lines d p).oddLineCode.testBit 2) ((Compute256.lines d p).evenLineCode.testBit 2)
    ((Compute256.lines d p).oddLineCode.testBit 1) ((Compute256.lines d p).evenLineCode.testBit 1)
    ((Compute256.lines d p).oddLineCode.testBit 0) ((Compute256.lines d p).evenLineCode.testBit 0)
  simp only [oddLineCode_testBit d p _ hd,
    evenLineCode_testBit d p _ hd (by decide : 7 < 8), evenLineCode_testBit d p _ hd (by decide : 6 < 8),
    evenLineCode_testBit d p _ hd (by decide : 5 < 8), evenLineCode_testBit d p _ hd (by decide : 4 < 8),
    evenLineCode_testBit d p _ hd (by decide : 3 < 8), evenLineCode_testBit d p _ hd (by decide : 2 < 8),
    evenLineCode_testBit d p _ hd (by decide : 1 < 8), evenLineCode_testBit d p _ hd (by decide : 0 < 8)]
    at a7 a6 a5 a4 a3 a2 a1 a0 b7 b6 b5 b4 b3 b2 b1 b0
  simp only [oddLineCode_testBit d p _ hd,
    evenLineCode_testBit d p _ hd (by decide : 7 < 8), evenLineCode_testBit d p _ hd (by decide : 6 < 8),
    evenLineCode_testBit d p _ hd (by decide : 5 < 8), evenLineCode_testBit d p _ hd (by decide : 4 < 8),
    evenLineCode_testBit d p _ hd (by decide : 3 < 8), evenLineCode_testBit d p _ hd (by decide : 2 < 8),
    evenLineCode_testBit d p _ hd (by decide : 1 < 8), evenLineCode_testBit d p _ hd (by decide : 0 < 8)]
  interval_cases j
  · exact ⟨a1, a0, b1, b0⟩
  · exact ⟨a3, a2, b3, b2⟩
  · exact ⟨a5, a4, b5, b4⟩
  · exact ⟨a7, a6, b7, b6⟩

/-- Instance of C7: the pair `P128'`, `P128` and `P8'`, `P8` of the first block of
`sampleData`. -/
theorem Compute256_line_layout_witness :
    (Compute256 sampleData 0).1.testBit (2 * 3 + 1) = !lineParity sampleData 0 (3 + 4) true ∧
    (Compute256 sampleData 0).1.testBit (2 * 3) = !lineParity sampleData 0 (3 + 4) false ∧
    (Compute256 sampleData 0).2.1.testBit (2 * 3 + 1) = !lineParity sampleData 0 3 true ∧
    (Compute256 sampleData 0).2.1.testBit (2 * 3) = !lineParity sampleData 0 3 false :=
  Compute256_line_layout sampleData 0 IsBytes_sampleData 3 (by decide)

theorem colPar_zero (j : Nat) (v : Bool) : colPar 0 j v = false := by
  simp [colPar, bxorFold]

/-- The column parity of the column sum is the column parity of the block. -/
theorem colPar_xorFold (f : Nat → Nat) (j : Nat) (v : Bool) :
    ∀ n, colPar (xorFold f n) j v = bxorFold (fun i => colPar (f i) j v) n
  | 0 => colPar_zero j v
  | n + 1 => by
    simp only [xorFold, bxorFold]
    rw [colPar_xor, colPar_xorFold f j v n]

theorem colPar_columnSum (d : Buf) (p j : Nat) (v : Bool) :
    colPar (Compute256.lines d p).columnSum j v = columnParity d p j v := by
  rw [lines_eq]
  simp only
  rw [colPar_xorFold]
  rfl

theorem pk_padding : ∀ b7 b6 b5 b4 b3 b2 : Bool,
    pk b7 b6 b5 b4 b3 b2 false false &&& 3 = 0 ∧
    (255 ^^^ pk b7 b6 b5 b4 b3 b2 false false) &&& 3 = 3 := by decide

/-- C8 (column-parity layout and padding). With `OC_j = columnParity d p j true` and
`EC_j = columnParity d p j false`, bits 7..2 of `code[2]` are the complements of
`OC_2 EC_2 OC_1 EC_1 OC_0 EC_0`; the two lowest bits of the third byte are zero when
the interleaving loop ends and therefore `code[2] & 3 = 3` after the inversion. -/
theorem Compute256_column_layout (d : Buf) (p : Nat) (hd : IsBytes d) :
    (Compute256 d p).2.2.testBit 7 = !columnParity d p 2 true ∧
    (Compute256 d p).2.2.testBit 6 = !columnParity d p 2 false ∧
    (Compute256 d p).2.2.testBit 5 = !columnParity d p 1 true ∧
    (Compute256 d p).2.2.testBit 4 = !columnParity d p 1 false ∧
    (Compute256 d p).2.2.testBit 3 = !columnParity d p 0 true ∧
    (Compute256 d p).2.2.testBit 2 = !columnParity d p 0 false ∧
    (Compute256.pack (Compute256.lines d p).oddLineCode (Compute256.lines d p).evenLineCode
      (Compute256.columns (Compute256.lines d p).columnSum).oddColumnCode
      (Compute256.columns (Compute256.lines d p).columnSum).evenColumnCode).code2 &&& 3 = 0 ∧
    (Compute256 d p).2.2 &&& 3 = 3 := by
  obtain ⟨hcs, _, _⟩ := lines_lt d p hd
  rw [Compute256_eq d p hd, pack_column _ _ _ hcs]
  simp only [rawColumn]
  obtain ⟨a7, a6, a5, a4, a3, a2, _, _⟩ := testBit_inv_pk
    (colPar (Compute256.lines d p).columnSum 2 true)
    (colPar (Compute256.lines d p).columnSum 2 false)
    (colPar (Compute256.lines d p).columnSum 1 true)
    (colPar (Compute256.lines d p).columnSum 1 false)
    (colPar (Compute256.lines d p).columnSum 0 true)
    (colPar (Compute256.lines d p).columnSum 0 false) false false
  obtain ⟨z, t⟩ := pk_padding
    (colPar (Compute256.lines d p).columnSum 2 true)
    (colPar (Compute256.lines d p).columnSum 2 false)
    (colPar (Compute256.lines d p).columnSum 1 true)
    (colPar (Compute256.lines d p).columnSum 1 false)
    (colPar (Compute256.lines d p).columnSum 0 true)
    (colPar (Compute256.lines d p).columnSum 0 false)
  simp only [colPar_columnSum] at a7 a6 a5 a4 a3 a2 z t ⊢
  exact ⟨a7, a6, a5, a4, a3, a2, z, t⟩

/-- Instance of C8: the third block of `sampleData`. -/
theorem Compute256_column_layout_witness :
    (Compute256 sampleData 512).2.2.testBit 7 = !columnParity sampleData 512 2 true ∧
    (Compute256 sampleData 512).2.2 &&& 3 = 3 :=
  ⟨(Compute256_column_layout sampleData 512 IsBytes_sampleData).1,
    (Compute256_column_layout sampleData 512 IsBytes_sampleData).2.2.2.2.2.2.2⟩

/-! ## The multi-block wrapper `nftl_ecc_verify256` -/

theorem Compute256_congr (d1 d2 : Buf) (p : Nat) (h : ∀ i, i < 256 → d2 (p + i) = d1 (p + i)) :
    Compute256 d2 p = Compute256 d1 p := by
  have hl : Compute256.lines d2 p = Compute256.lines d1 p := by
    rw [lines_eq, lines_eq]
    congr 1
    · exact xorFold_congr _ _ 256 fun i hi => h i hi
    · exact xorFold_congr _ _ 256 fun i hi => by simp only [evenTerm, h i hi]
    · exact xorFold_congr _ _ 256 fun i hi => by simp only [oddTerm, h i hi]
  unfold Compute256
  rw [hl]

/-- The value returned by `Verify256` depends only on the block and its three code bytes. -/
theorem Verify256_fst_congr (m1 m2 : Bufs) (p c : Nat)
    (hd : ∀ i, i < 256 → m2.data (p + i) = m1.data (p + i)) (hc : m2.code = m1.code) :
    (Verify256 m2 p c).1 = (Verify256 m1 p c).1 := by
  have hcc : Verify256.correctionCode m2 p c = Verify256.correctionCode m1 p c := by
    simp only [Verify256.correctionCode, Compute256_congr _ _ p hd, hc]
  unfold Verify256
  rw [hcc]
  dsimp only
  split_ifs <;> rfl

/-- `Verify256` either leaves the buffers alone or stores one byte inside the block. -/
theorem Verify256_cases (m : Bufs) (p c : Nat) :
    ((Verify256 m p c).1 ≠ Hamming_ERROR_SINGLEBIT ∧ (Verify256 m p c).2 = m) ∨
    ((Verify256 m p c).1 = Hamming_ERROR_SINGLEBIT ∧ ∃ byte, byte < 256 ∧ ∃ bit, bit < 8 ∧
      (Verify256 m p c).2 =
        ⟨Buf.set m.data (p + byte) ((m.data (p + byte) ^^^ (1 <<< bit)) % 256), m.code⟩) := by
  by_cases h0 : (Verify256.correctionCode m p c).1 = 0 ∧
      (Verify256.correctionCode m p c).2.1 = 0 ∧ (Verify256.correctionCode m p c).2.2 = 0
  · rw [Verify256_zero m p c (Prod.ext h0.1 (Prod.ext h0.2.1 h0.2.2))]
    exact Or.inl ⟨by simp, rfl⟩
  · by_cases h11 : CountBitsInCode256 (Verify256.correctionCode m p c) = 11
    · rw [Verify256_single m p c h0 h11]
      exact Or.inr ⟨rfl, _, byteIndex_lt _, _, bitIndex_lt _, rfl⟩
    · by_cases h1 : CountBitsInCode256 (Verify256.correctionCode m p c) = 1
      · rw [Verify256_ecc m p c h0 h1]
        exact Or.inl ⟨by simp, rfl⟩
      · rw [Verify256_multi m p c h0 h11 h1]
        exact Or.inl ⟨by simp, rfl⟩

theorem Verify256_range (m : Bufs) (p c : Nat) :
    (Verify256 m p c).1 = 0 ∨ (Verify256 m p c).1 = 1 ∨ (Verify256 m p c).1 = 2 ∨
    (Verify256 m p c).1 = 3 := by
  unfold Verify256
  dsimp only
  split_ifs <;> simp

/-- `Verify256` keeps the codes and every data byte outside its block. -/
theorem Verify256_outside (m : Bufs) (p c : Nat) :
    (Verify256 m p c).2.code = m.code ∧
    ∀ x, (x < p ∨ p + 256 ≤ x) → (Verify256 m p c).2.data x = m.data x := by
  rcases Verify256_cases m p c with ⟨_, hm⟩ | ⟨_, byte, hbyte, bit, _, hm⟩
  · rw [hm]
    exact ⟨rfl, fun _ _ => rfl⟩
  · rw [hm]
    refine ⟨rfl, fun x hx => ?_⟩
    simp only [Buf.set]
    rw [if_neg (by omega)]

theorem AgreeFrom_step (m m1 : Bufs) (j : Nat) (h : AgreeFrom m m1 (256 * j)) :
    AgreeFrom m (Verify256 m1 (256 * j) (3 * j)).2 (256 * (j + 1)) ∧
    (Verify256 m1 (256 * j) (3 * j)).1 = blockClass m j := by
  obtain ⟨hc, hd⟩ := Verify256_outside m1 (256 * j) (3 * j)
  refine ⟨⟨hc.trans h.1, fun x hx => ?_⟩, ?_⟩
  · rw [hd x (by omega)]
    exact h.2 x (by omega)
  · exact Verify256_fst_congr m m1 _ _ (fun i _ => h.2 _ (by omega)) h.1

theorem loop_done (EOK ECORR : Int) (fuel : Nat) (m1 : Bufs) (data code : Nat) (result : Int) :
    nftl_ecc_verify256.loop EOK ECORR fuel m1 data 0 code result =
      some (nftl_ecc_verify256.finish EOK ECORR result, m1) := by
  cases fuel <;> simp [nftl_ecc_verify256.loop]

theorem loop_step_zero (EOK ECORR : Int) (fuel : Nat) (m1 : Bufs) (data size code : Nat)
    (result : Int) (hs : 0 < size) (h : (Verify256 m1 data code).1 = 0) :
    nftl_ecc_verify256.loop EOK ECORR (fuel + 1) m1 data size code result =
      nftl_ecc_verify256.loop EOK ECORR fuel (Verify256 m1 data code).2 (data + 256)
        ((size + 4294967296 - 256) % 4294967296) (code + 3) result := by
  rw [nftl_ecc_verify256.loop]
  simp [hs, h]

theorem loop_step_single (EOK ECORR : Int) (fuel : Nat) (m1 : Bufs) (data size code : Nat)
    (result : Int) (hs : 0 < size) (h : (Verify256 m1 data code).1 = 1) :
    nftl_ecc_verify256.loop EOK ECORR (fuel + 1) m1 data size code result =
      nftl_ecc_verify256.loop EOK ECORR fuel (Verify256 m1 data code).2 (data + 256)
        ((size + 4294967296 - 256) % 4294967296) (code + 3) 1 := by
  rw [nftl_ecc_verify256.loop]
  simp [hs, h]

theorem loop_step_hard (EOK ECORR : Int) (fuel : Nat) (m1 : Bufs) (data size code : Nat)
    (result : Int) (hs : 0 < size)
    (h : (Verify256 m1 data code).1 = 2 ∨ (Verify256 m1 data code).1 = 3) :
    nftl_ecc_verify256.loop EOK ECORR (fuel + 1) m1 data size code result =
      some (((Verify256 m1 data code).1 : Int), (Verify256 m1 data code).2) := by
  rw [nftl_ecc_verify256.loop]
  rcases h with h | h <;> simp [hs, h]

/-- A scan over `k` blocks that all classify as 0 or 1 runs to the end of the loop. -/
theorem scan_soft (EOK ECORR : Int) (m : Bufs) :
    ∀ (k j0 : Nat) (m1 : Bufs) (result : Int) (fuel : Nat), k ≤ fuel →
      256 * (j0 + k) < 4294967296 → AgreeFrom m m1 (256 * j0) →
      (∀ i, j0 ≤ i → i < j0 + k → blockClass m i = 0 ∨ blockClass m i = 1) →
      ∃ m2 r, nftl_ecc_verify256.loop EOK ECORR fuel m1 (256 * j0) (256 * k) (3 * j0) result =
          some (nftl_ecc_verify256.finish EOK ECORR r, m2) ∧
        ((∃ i, j0 ≤ i ∧ i < j0 + k ∧ blockClass m i = 1) → r = 1) ∧
        ((∀ i, j0 ≤ i → i < j0 + k → blockClass m i = 0) → r = result)
  | 0, j0, m1, result, fuel, _, _, _, _ => by
    refine ⟨m1, result, loop_done EOK ECORR fuel m1 _ _ result, ?_, fun _ => rfl⟩
    rintro ⟨i, h1, h2, _⟩
    omega
  | k + 1, j0, m1, result, 0, hf, _, _, _ => by omega
  | k + 1, j0, m1, result, fuel + 1, hf, hsz, hag, hsoft => by
    obtain ⟨hag2, hcl⟩ := AgreeFrom_step m m1 j0 hag
    have hsize : (256 * (k + 1) + 4294967296 - 256) % 4294967296 = 256 * k := by omega
    have hd : 256 * j0 + 256 = 256 * (j0 + 1) := by omega
    have hc : 3 * j0 + 3 = 3 * (j0 + 1) := by omega
    rcases hsoft j0 (Nat.le_refl _) (by omega) with h0 | h1
    · obtain ⟨m2, r, hrun, hs1, hs0⟩ := scan_soft EOK ECORR m k (j0 + 1) _ result fuel
        (by omega) (by omega) hag2 (fun i hi1 hi2 => hsoft i (by omega) (by omega))
      refine ⟨m2, r, ?_, ?_, ?_⟩
      · rw [loop_step_zero EOK ECORR fuel m1 _ _ _ result (by omega) (hcl.trans h0), hsize, hd,
          hc]
        exact hrun
      · rintro ⟨i, hi1, hi2, hi3⟩
        apply hs1
        refine ⟨i, ?_, by omega, hi3⟩
        by_cases hij : i = j0
        · subst hij; omega
        · omega
      · intro hall
        exact hs0 fun i hi1 hi2 => hall i (by omega) (by omega)
    · obtain ⟨m2, r, hrun, hs1, hs0⟩ := scan_soft EOK ECORR m k (j0 + 1) _ 1 fuel
        (by omega) (by omega) hag2 (fun i hi1 hi2 => hsoft i (by omega) (by omega))
      have hr : r = 1 := by
        by_cases hex : ∃ i, j0 + 1 ≤ i ∧ i < j0 + 1 + k ∧ blockClass m i = 1
        · exact hs1 hex
        · apply hs0
          intro i hi1 hi2
          rcases hsoft i (by omega) (by omega) with h | h
          · exact h
          · exact absurd ⟨i, hi1, hi2, h⟩ hex
      refine ⟨m2, r, ?_, fun _ => hr, ?_⟩
      · rw [loop_step_single EOK ECORR fuel m1 _ _ _ result (by omega) (hcl.trans h1), hsize,
          hd, hc]
        exact hrun
      · intro hall
        have := hall j0 (Nat.le_refl _) (by omega)
        omega

/-- A scan stops at the first block that classifies as 2 or 3, after `t + 1` rounds. -/
theorem scan_hard (EOK ECORR : Int) (m : Bufs) :
    ∀ (t j0 : Nat) (m1 : Bufs) (result : Int) (fuel k : Nat), t + 1 ≤ fuel → t < k →
      256 * (j0 + k) < 4294967296 → AgreeFrom m m1 (256 * j0) →
      (∀ i, j0 ≤ i → i < j0 + t → blockClass m i = 0 ∨ blockClass m i = 1) →
      (blockClass m (j0 + t) = 2 ∨ blockClass m (j0 + t) = 3) →
      ∃ m2, nftl_ecc_verify256.loop EOK ECORR fuel m1 (256 * j0) (256 * k) (3 * j0) result =
          some ((blockClass m (j0 + t) : Int), m2)
  | _, _, _, _, 0, _, hf, _, _, _, _, _ => by omega
  | 0, j0, m1, result, fuel + 1, k, _, hk, _, hag, _, hhard => by
    obtain ⟨_, hcl⟩ := AgreeFrom_step m m1 j0 hag
    simp only [Nat.add_zero] at hhard ⊢
    rw [← hcl] at hhard ⊢
    exact ⟨_, loop_step_hard EOK ECORR fuel m1 _ _ _ result (by omega) hhard⟩
  | t + 1, j0, m1, result, fuel + 1, k, hf, hk, hsz, hag, hsoft, hhard => by
    obtain ⟨hag2, hcl⟩ := AgreeFrom_step m m1 j0 hag
    have hsize : (256 * k + 4294967296 - 256) % 4294967296 = 256 * (k - 1) := by omega
    have hd : 256 * j0 + 256 = 256 * (j0 + 1) := by omega
    have hc : 3 * j0 + 3 = 3 * (j0 + 1) := by omega
    have hjt : j0 + (t + 1) = j0 + 1 + t := by omega
    rw [hjt] at hhard ⊢
    rcases hsoft j0 (Nat.le_refl _) (by omega) with h0 | h1
    · obtain ⟨m2, hrun⟩ := scan_hard EOK ECORR m t (j0 + 1) _ result fuel (k - 1) (by omega)
        (by omega) (by omega) hag2 (fun i hi1 hi2 => hsoft i (by omega) (by omega)) hhard
      refine ⟨m2, ?_⟩
      rw [loop_step_zero EOK ECORR fuel m1 _ _ _ result (by omega) (hcl.trans h0), hsize, hd, hc]
      exact hrun
    · obtain ⟨m2, hrun⟩ := scan_hard EOK ECORR m t (j0 + 1) _ 1 fuel (k - 1) (by omega)
        (by omega) (by omega) hag2 (fun i hi1 hi2 => hsoft i (by omega) (by omega)) hhard
      refine ⟨m2, ?_⟩
      rw [loop_step_single EOK ECORR fuel m1 _ _ _ result (by omega) (hcl.trans h1), hsize, hd,
        hc]
      exact hrun

theorem AgreeFrom_refl (m : Bufs) (a : Nat) : AgreeFrom m m a := ⟨rfl, fun _ _ => rfl⟩

theorem blockClass_soft (m : Bufs) (i : Nat)
    (h : ¬(blockClass m i = 2 ∨ blockClass m i = 3)) : blockClass m i = 0 ∨ blockClass m i = 1 := by
  rcases Verify256_range m (256 * i) (3 * i) with h0 | h1 | h2 | h3
  · exact Or.inl h0
  · exact Or.inr h1
  · exact absurd (Or.inl h2) h
  · exact absurd (Or.inr h3) h

theorem wrapper_eq (EOK ECORR : Int) (fuel : Nat) (m : Bufs) (n : Nat)
    (hsize : 256 * n < 4294967296) :
    nftl_ecc_verify256 EOK ECORR fuel m (256 * n) =
      nftl_ecc_verify256.loop EOK ECORR fuel m (256 * 0) (256 * n) (3 * 0) 0 := by
  unfold nftl_ecc_verify256
  rw [Nat.mod_eq_of_lt hsize]

/-- C9 (multi-block verify aggregation). For `n ≥ 1` blocks (`size = 256 n`, an
`rt_uint32_t`) with `r_j = blockClass m j`: if block `j` is the first with `r_j` equal
to `Hamming_ERROR_ECC` or `Hamming_ERROR_MULTIPLEBITS`, `nftl_ecc_verify256` returns
the raw `r_j` after `j + 1` rounds of its loop (no later block is examined); if no block
is such and some `r_j` is `Hamming_ERROR_SINGLEBIT`, it returns `-RT_MTD_EECC_CORRECT`;
if every `r_j` is 0 it returns `RT_MTD_EOK`. `RT_MTD_EECC_CORRECT` is a non-zero
error number. -/
theorem nftl_ecc_verify256_aggregation (RT_MTD_EOK RT_MTD_EECC_CORRECT : Int)
    (hcorr : RT_MTD_EECC_CORRECT ≠ 0) (m : Bufs) (n : Nat) (hn : 1 ≤ n)
    (hsize : 256 * n < 4294967296) :
    (∀ j, j < n →
      (blockClass m j = Hamming_ERROR_ECC ∨ blockClass m j = Hamming_ERROR_MULTIPLEBITS) →
      (∀ i, i < j →
        ¬(blockClass m i = Hamming_ERROR_ECC ∨ blockClass m i = Hamming_ERROR_MULTIPLEBITS)) →
      ∀ fuel, j + 1 ≤ fuel → ∃ m2,
        nftl_ecc_verify256 RT_MTD_EOK RT_MTD_EECC_CORRECT fuel m (256 * n) =
          some ((blockClass m j : Int), m2)) ∧
    ((∀ j, j < n →
        ¬(blockClass m j = Hamming_ERROR_ECC ∨ blockClass m j = Hamming_ERROR_MULTIPLEBITS)) →
      (∃ j, j < n ∧ blockClass m j = Hamming_ERROR_SINGLEBIT) →
      ∀ fuel, n ≤ fuel → ∃ m2,
        nftl_ecc_verify256 RT_MTD_EOK RT_MTD_EECC_CORRECT fuel m (256 * n) =
          some (-RT_MTD_EECC_CORRECT, m2)) ∧
    ((∀ j, j < n → blockClass m j = 0) →
      ∀ fuel, n ≤ fuel → ∃ m2,
        nftl_ecc_verify256 RT_MTD_EOK RT_MTD_EECC_CORRECT fuel m (256 * n) =
          some (RT_MTD_EOK, m2)) := by
  refine ⟨?_, ?_, ?_⟩
  · intro j hj hhard hbefore fuel hfuel
    rw [wrapper_eq _ _ fuel m n hsize]
    have h := scan_hard RT_MTD_EOK RT_MTD_EECC_CORRECT m j 0 m 0 fuel n hfuel hj
      (by omega) (AgreeFrom_refl m _)
      (fun i _ hi => blockClass_soft m i (hbefore i (by omega))) (by rw [Nat.zero_add]; exact hhard)
    rw [Nat.zero_add] at h
    exact h
  · intro hsoft hex fuel hfuel
    rw [wrapper_eq _ _ fuel m n hsize]
    obtain ⟨m2, r, hrun, h1, _⟩ := scan_soft RT_MTD_EOK RT_MTD_EECC_CORRECT m n 0 m 0 fuel hfuel
      (by omega) (AgreeFrom_refl m _) (fun i _ hi => blockClass_soft m i (hsoft i (by omega)))
    obtain ⟨j, hj, hj1⟩ := hex
    have hr : r = 1 := h1 ⟨j, Nat.zero_le _, by omega, hj1⟩
    refine ⟨m2, ?_⟩
    rw [hrun, hr]
    have hneg : ¬(-RT_MTD_EECC_CORRECT = 0) := by omega
    simp [nftl_ecc_verify256.finish, hneg]
  · intro hall fuel hfuel
    rw [wrapper_eq _ _ fuel m n hsize]
    obtain ⟨m2, r, hrun, _, h0⟩ := scan_soft RT_MTD_EOK RT_MTD_EECC_CORRECT m n 0 m 0 fuel hfuel
      (by omega) (AgreeFrom_refl m _) (fun i _ hi => Or.inl (hall i (by omega)))
    have hr : r = 0 := h0 fun i _ hi => hall i (by omega)
    refine ⟨m2, ?_⟩
    rw [hrun, hr]
    simp [nftl_ecc_verify256.finish]

theorem sample_blocks_clean : ∀ j, j < 3 → blockClass ⟨sampleData, sampleCode⟩ j = 0 := by
  decide!

/-- Instance of C9: the three clean blocks of `sampleData`, with `RT_MTD_EOK = 0` and
`RT_MTD_EECC_CORRECT = 6`. -/
theorem nftl_ecc_verify256_aggregation_witness :
    ∃ m2, nftl_ecc_verify256 0 6 3 ⟨sampleData, sampleCode⟩ (256 * 3) = some (0, m2) :=
  (nftl_ecc_verify256_aggregation 0 6 (by decide) ⟨sampleData, sampleCode⟩ 3 (by decide)
    (by decide)).2.2 sample_blocks_clean 3 (Nat.le_refl 3)

/-- C10 fails as stated: in `damagedData`/`damagedCode` the second block classifies as
`Hamming_ERROR_ECC` and the third as `Hamming_ERROR_SINGLEBIT`, yet the wrapper returns
`Hamming_ERROR_MULTIPLEBITS`, the classification of the first block. -/
theorem nftl_ecc_verify256_three_blocks_counterexample :
    blockClass ⟨damagedData, damagedCode⟩ 1 = Hamming_ERROR_ECC ∧
    blockClass ⟨damagedData, damagedCode⟩ 2 = Hamming_ERROR_SINGLEBIT ∧
    (nftl_ecc_verify256 0 6 3 ⟨damagedData, damagedCode⟩ 768).map Prod.fst = some 3 ∧
    (nftl_ecc_verify256 0 6 3 ⟨damagedData, damagedCode⟩ 768).map Prod.fst ≠ some 2 := by
  decide!

/-- C10, amended (three-block aggregation). For three blocks of which the first does not
classify as `Hamming_ERROR_MULTIPLEBITS`, the second classifies as `Hamming_ERROR_ECC`
and the third as `Hamming_ERROR_SINGLEBIT`, `nftl_ecc_verify256` returns
`Hamming_ERROR_ECC`. -/
theorem nftl_ecc_verify256_three_blocks (RT_MTD_EOK RT_MTD_EECC_CORRECT : Int) (m : Bufs)
    (h1 : blockClass m 0 ≠ Hamming_ERROR_MULTIPLEBITS)
    (h2 : blockClass m 1 = Hamming_ERROR_ECC)
    (_h3 : blockClass m 2 = Hamming_ERROR_SINGLEBIT) (fuel : Nat) (hfuel : 2 ≤ fuel) :
    ∃ m2, nftl_ecc_verify256 RT_MTD_EOK RT_MTD_EECC_CORRECT fuel m 768 =
      some ((Hamming_ERROR_ECC : Int), m2) := by
  have e : (768 : Nat) = 256 * 3 := rfl
  rw [e, wrapper_eq _ _ fuel m 3 (by decide)]
  by_cases h : blockClass m 0 = 2
  · have hh := scan_hard RT_MTD_EOK RT_MTD_EECC_CORRECT m 0 0 m 0 fuel 3 (by omega) (by decide)
      (by decide) (AgreeFrom_refl m _) (fun i _ hi => by omega) (Or.inl h)
    simp only [Nat.add_zero, h] at hh
    exact hh
  · have hsoft : blockClass m 0 = 0 ∨ blockClass m 0 = 1 := by
      rcases Verify256_range m (256 * 0) (3 * 0) with a | a | a | a
      · exact Or.inl a
      · exact Or.inr a
      · exact absurd a h
      · exact absurd a h1
    have hh := scan_hard RT_MTD_EOK RT_MTD_EECC_CORRECT m 1 0 m 0 fuel 3 (by omega) (by decide)
      (by decide) (AgreeFrom_refl m _)
      (fun i _ hi => by
        have hi0 : i = 0 := by omega
        subst hi0
        exact hsoft)
      (Or.inl h2)
    simp only [Nat.zero_add, h2] at hh
    exact hh

theorem damaged_blocks :
    blockClass ⟨sampleData, damagedCode⟩ 0 ≠ Hamming_ERROR_MULTIPLEBITS ∧
    blockClass ⟨flipBit sampleData (512 + 5) 3, damagedCode⟩ 0 ≠ Hamming_ERROR_MULTIPLEBITS ∧
    blockClass ⟨flipBit sampleData (512 + 5) 3, damagedCode⟩ 1 = Hamming_ERROR_ECC ∧
    blockClass ⟨flipBit sampleData (512 + 5) 3, damagedCode⟩ 2 = Hamming_ERROR_SINGLEBIT := by
  decide!

/-- Instance of the amended C10: a clean first block, a damaged code of the second block
and one flipped bit in the third. -/
theorem nftl_ecc_verify256_three_blocks_witness :
    ∃ m2, nftl_ecc_verify256 0 6 3 ⟨flipBit sampleData (512 + 5) 3, damagedCode⟩ 768 =
      some ((Hamming_ERROR_ECC : Int), m2) :=
  nftl_ecc_verify256_three_blocks 0 6 ⟨flipBit sampleData (512 + 5) 3, damagedCode⟩
    damaged_blocks.2.1 damaged_blocks.2.2.1 damaged_blocks.2.2.2 3 (by decide)

/-! ## The multi-block wrapper `nftl_ecc_compute256` -/

theorem store_data (m : Bufs) (p c : Nat) : (Compute256.store m p c).data = m.data := rfl

theorem store_readCode (m : Bufs) (p c : Nat) :
    readCode (Compute256.store m p c).code c = Compute256 m.data p := by
  simp [Compute256.store, readCode, Buf.set]

theorem store_other (m : Bufs) (p c a : Nat) (h : a < c ∨ c + 3 ≤ a) :
    (Compute256.store m p c).code a = m.code a := by
  simp only [Compute256.store, Buf.set]
  rw [if_neg (by omega), if_neg (by omega), if_neg (by omega)]

theorem compute_loop_done (fuel : Nat) (m : Bufs) (data code : Nat) :
    nftl_ecc_compute256.loop fuel m data 0 code = some m := by
  cases fuel <;> simp [nftl_ecc_compute256.loop]

theorem compute_loop_step (fuel : Nat) (m : Bufs) (data size code : Nat) (hs : 0 < size) :
    nftl_ecc_compute256.loop (fuel + 1) m data size code =
      nftl_ecc_compute256.loop fuel (Compute256.store m data code) (data + 256)
        ((size + 4294967296 - 256) % 4294967296) (code + 3) := by
  rw [nftl_ecc_compute256.loop]
  simp [hs]

/-- With fewer rounds than blocks the loop of `nftl_ecc_compute256` is still running. -/
theorem compute_scan_short :
    ∀ (fuel k : Nat) (m1 : Bufs) (data code : Nat), fuel < k → 256 * k < 4294967296 →
      nftl_ecc_compute256.loop fuel m1 data (256 * k) code = none
  | 0, k, m1, data, code, hk, _ => by
    rw [nftl_ecc_compute256.loop]
    simp
    omega
  | fuel + 1, k, m1, data, code, hk, hsz => by
    have hsize : (256 * k + 4294967296 - 256) % 4294967296 = 256 * (k - 1) := by omega
    rw [compute_loop_step fuel m1 _ _ _ (by omega), hsize]
    exact compute_scan_short fuel (k - 1) _ _ _ (by omega) (by omega)

/-- `k` rounds of the loop of `nftl_ecc_compute256` store the codes of `k` blocks. -/
theorem compute_scan (m : Bufs) :
    ∀ (k j0 : Nat) (m1 : Bufs) (fuel : Nat), k ≤ fuel → 256 * (j0 + k) < 4294967296 →
      m1.data = m.data →
      ∃ m2, nftl_ecc_compute256.loop fuel m1 (256 * j0) (256 * k) (3 * j0) = some m2 ∧
        m2.data = m.data ∧
        (∀ j, j0 ≤ j → j < j0 + k → readCode m2.code (3 * j) = Compute256 m.data (256 * j)) ∧
        (∀ a, (a < 3 * j0 ∨ 3 * (j0 + k) ≤ a) → m2.code a = m1.code a)
  | 0, j0, m1, fuel, _, _, hd => by
    refine ⟨m1, compute_loop_done fuel m1 _ _, hd, ?_, fun _ _ => rfl⟩
    intro j h1 h2
    omega
  | k + 1, j0, m1, 0, hf, _, _ => by omega
  | k + 1, j0, m1, fuel + 1, hf, hsz, hd => by
    have hsize : (256 * (k + 1) + 4294967296 - 256) % 4294967296 = 256 * k := by omega
    have hdp : 256 * j0 + 256 = 256 * (j0 + 1) := by omega
    have hcp : 3 * j0 + 3 = 3 * (j0 + 1) := by omega
    obtain ⟨m2, hrun, hdata, hcodes, hrest⟩ := compute_scan m k (j0 + 1)
      (Compute256.store m1 (256 * j0) (3 * j0)) fuel (by omega) (by omega)
      ((store_data m1 _ _).trans hd)
    refine ⟨m2, ?_, hdata, ?_, ?_⟩
    · rw [compute_loop_step fuel m1 _ _ _ (by omega), hsize, hdp, hcp]
      exact hrun
    · intro j h1 h2
      by_cases hj : j = j0
      · subst hj
        have e0 := hrest (3 * j) (Or.inl (by omega))
        have e1 := hrest (3 * j + 1) (Or.inl (by omega))
        have e2 := hrest (3 * j + 2) (Or.inl (by omega))
        have hs := store_readCode m1 (256 * j) (3 * j)
        simp only [readCode] at hs ⊢
        rw [e0, e1, e2, hs, hd]
      · exact hcodes j (by omega) (by omega)
    · intro a ha
      rw [hrest a (by omega)]
      exact store_other m1 _ _ a (by omega)

/-- C11 (multi-block compute). For `n` blocks with `256 n` representable in 32 bits,
`nftl_ecc_compute256(data, 256 n, code)` needs exactly `n` rounds of its loop (fewer
leave it running, `n` or more finish it); afterwards code bytes `3j, 3j+1, 3j+2` are
`Compute256` of data bytes `256j .. 256j+255` for every `j < n`, the code bytes from
`3n` on are as before, and the data buffer is unchanged. -/
theorem nftl_ecc_compute256_blocks (m : Bufs) (n : Nat) (hn : 1 ≤ n)
    (hsize : 256 * n < 4294967296) :
    (∀ fuel, fuel < n → nftl_ecc_compute256 fuel m (256 * n) = none) ∧
    (∀ fuel, n ≤ fuel → ∃ m2, nftl_ecc_compute256 fuel m (256 * n) = some m2 ∧
      m2.data = m.data ∧
      (∀ j, j < n → readCode m2.code (3 * j) = Compute256 m.data (256 * j)) ∧
      (∀ a, 3 * n ≤ a → m2.code a = m.code a)) := by
  have _ := hn
  unfold nftl_ecc_compute256
  rw [Nat.mod_eq_of_lt hsize]
  refine ⟨fun fuel hf => compute_scan_short fuel n m 0 0 hf hsize, fun fuel hf => ?_⟩
  obtain ⟨m2, hrun, hdata, hcodes, hrest⟩ := compute_scan m n 0 m fuel hf (by omega) rfl
  refine ⟨m2, hrun, hdata, fun j hj => hcodes j (Nat.zero_le _) (by omega), fun a ha => ?_⟩
  exact hrest a (Or.inr (by omega))

theorem sampleCode_all : ∀ j, j < 3 → readCode sampleCode (3 * j) = Compute256 sampleData (256 * j) := by
  decide!

/-- Instance of C11: the codes of the three blocks of `sampleData` are those listed in
`sampleCode`, whatever the code buffer held before. -/
theorem nftl_ecc_compute256_blocks_witness :
    ∃ m2, nftl_ecc_compute256 3 ⟨sampleData, fun _ => 0⟩ (256 * 3) = some m2 ∧
      m2.data = sampleData ∧ readCode m2.code (3 * 2) = readCode sampleCode (3 * 2) := by
  obtain ⟨m2, h1, h2, h3, _⟩ :=
    (nftl_ecc_compute256_blocks ⟨sampleData, fun _ => 0⟩ 3 (by decide) (by decide)).2 3
      (Nat.le_refl 3)
  exact ⟨m2, h1, h2, (h3 2 (by decide)).trans (sampleCode_all 2 (by decide)).symm⟩

/-! ## Regression pin and termination -/

/-- C12 (all-zero regression pin). `Compute256` of 256 zero bytes is `0xFF, 0xFF, 0xFF`;
`Verify256` of the block that is zero except for byte 0 = `0x01` against that code returns
`Hamming_ERROR_SINGLEBIT` and leaves the buffer all zero. -/
theorem Compute256_zero_block :
    Compute256 (fun _ => 0) 0 = (0xFF, 0xFF, 0xFF) ∧
    Verify256 ⟨Buf.set (fun _ => 0) 0 0x01, fun _ => 0xFF⟩ 0 0 =
      (Hamming_ERROR_SINGLEBIT, ⟨fun _ => 0, fun _ => 0xFF⟩) := by
  refine ⟨by decide!, ?_⟩
  have hb : Verify256.byteIndex
      (Verify256.correctionCode ⟨Buf.set (fun _ => 0) 0 0x01, fun _ => 0xFF⟩ 0 0) = 0 := by
    decide!
  have hk : Verify256.bitIndex
      (Verify256.correctionCode ⟨Buf.set (fun _ => 0) 0 0x01, fun _ => 0xFF⟩ 0 0) = 0 := by
    decide!
  rw [Verify256_single _ 0 0 (by decide!) (by decide!), hb, hk]
  have hd : Buf.set (Buf.set (fun _ => 0) 0 0x01) (0 + 0)
      ((Buf.set (fun _ => 0) 0 0x01 (0 + 0) ^^^ (1 <<< 0)) % 256) = fun _ => 0 := by
    funext x
    by_cases hx : x = 0
    · subst hx; decide
    · simp [Buf.set, hx]
  simp only [hd]

theorem compute_loop_never :
    ∀ (fuel : Nat) (m : Bufs) (data size code : Nat), size % 256 ≠ 0 → size < 4294967296 →
      nftl_ecc_compute256.loop fuel m data size code = none
  | 0, m, data, size, code, h, _ => by
    rw [nftl_ecc_compute256.loop]
    simp
    omega
  | fuel + 1, m, data, size, code, h, hlt => by
    rw [compute_loop_step fuel m _ _ _ (by omega)]
    exact compute_loop_never fuel _ _ _ _ (by omega) (Nat.mod_lt _ (by omega))

theorem sizeAfter_zero (size : Nat) : sizeAfter size 0 = size := rfl

theorem sizeAfter_succ (size k : Nat) :
    sizeAfter size (k + 1) = sizeAfter ((size + 4294967296 - 256) % 4294967296) k := by
  unfold sizeAfter
  rw [Function.iterate_succ_apply]
  rfl

theorem sizeAfter_never : ∀ (k size : Nat), size % 256 ≠ 0 → size < 4294967296 →
    sizeAfter size k ≠ 0
  | 0, size, h, _ => by
    rw [sizeAfter_zero]
    omega
  | k + 1, size, h, hlt => by
    rw [sizeAfter_succ]
    exact sizeAfter_never k _ (by omega) (Nat.mod_lt _ (by omega))

theorem sizeAfter_blocks : ∀ k : Nat, 256 * k < 4294967296 → sizeAfter (256 * k) k = 0
  | 0, _ => rfl
  | k + 1, h => by
    have hsize : (256 * (k + 1) + 4294967296 - 256) % 4294967296 = 256 * k := by omega
    rw [sizeAfter_succ, hsize]
    exact sizeAfter_blocks k (by omega)

/-- The loop of `nftl_ecc_verify256` over `k` blocks ends within `k` rounds. -/
theorem verify_loop_terminates (EOK ECORR : Int) :
    ∀ (k fuel : Nat) (m1 : Bufs) (data code : Nat) (result : Int), k ≤ fuel →
      256 * k < 4294967296 →
      ∃ r, nftl_ecc_verify256.loop EOK ECORR fuel m1 data (256 * k) code result = some r
  | 0, fuel, m1, data, code, result, _, _ => ⟨_, loop_done EOK ECORR fuel m1 _ _ result⟩
  | k + 1, 0, _, _, _, _, hf, _ => by omega
  | k + 1, fuel + 1, m1, data, code, result, hf, hsz => by
    have hsize : (256 * (k + 1) + 4294967296 - 256) % 4294967296 = 256 * k := by omega
    rcases Verify256_range m1 data code with h | h | h | h
    · rw [loop_step_zero EOK ECORR fuel m1 _ _ _ result (by omega) h, hsize]
      exact verify_loop_terminates EOK ECORR k fuel _ _ _ _ (by omega) (by omega)
    · rw [loop_step_single EOK ECORR fuel m1 _ _ _ result (by omega) h, hsize]
      exact verify_loop_terminates EOK ECORR k fuel _ _ _ _ (by omega) (by omega)
    · exact ⟨_, loop_step_hard EOK ECORR fuel m1 _ _ _ result (by omega) (Or.inl h)⟩
    · exact ⟨_, loop_step_hard EOK ECORR fuel m1 _ _ _ result (by omega) (Or.inr h)⟩

/-- C13 fails as stated: for the size argument 1 the counter takes the values
`1, 2^32 - 255, …`, never 0, and the loop of `nftl_ecc_compute256` is still running after
any number of rounds. -/
theorem wrappers_terminate_counterexample :
    (∀ k, sizeAfter 1 k ≠ 0) ∧
    (∀ fuel, nftl_ecc_compute256 fuel ⟨sampleData, sampleCode⟩ 1 = none) :=
  ⟨fun k => sizeAfter_never k 1 (by decide) (by omega),
    fun fuel => compute_loop_never fuel _ 0 _ 0 (by decide) (by omega)⟩

/-- C13, amended (termination). For every 32-bit size argument that is a multiple of
256, the size counter reaches 0 after `size / 256` rounds and the loops of
`nftl_ecc_compute256` and `nftl_ecc_verify256` end within that many rounds. -/
theorem wrappers_terminate (RT_MTD_EOK RT_MTD_EECC_CORRECT : Int) (m : Bufs) (size : Nat)
    (hsize : size < 4294967296) (hmul : size % 256 = 0) :
    sizeAfter size (size / 256) = 0 ∧
    (∃ m2, nftl_ecc_compute256 (size / 256) m size = some m2) ∧
    (∃ r, nftl_ecc_verify256 RT_MTD_EOK RT_MTD_EECC_CORRECT (size / 256) m size = some r) := by
  have hk : size = 256 * (size / 256) := by omega
  have hlt : 256 * (size / 256) < 4294967296 := by omega
  refine ⟨?_, ?_, ?_⟩
  · have h := sizeAfter_blocks (size / 256) hlt
    rw [← hk] at h
    exact h
  · obtain ⟨m2, hrun, _⟩ := compute_scan m (size / 256) 0 m (size / 256) (Nat.le_refl _)
      (by omega) rfl
    refine ⟨m2, ?_⟩
    unfold nftl_ecc_compute256
    rw [Nat.mod_eq_of_lt hsize]
    rw [← hk] at hrun
    exact hrun
  · unfold nftl_ecc_verify256
    rw [Nat.mod_eq_of_lt hsize]
    have h := verify_loop_terminates RT_MTD_EOK RT_MTD_EECC_CORRECT (size / 256) (size / 256) m
      0 0 0 (Nat.le_refl _) hlt
    rw [← hk] at h
    exact h

/-- Instance of the amended C13: three blocks, `size = 768`. -/
theorem wrappers_terminate_witness :
    sizeAfter 768 (768 / 256) = 0 ∧
    (∃ m2, nftl_ecc_compute256 (768 / 256) ⟨sampleData, sampleCode⟩ 768 = some m2) ∧
    (∃ r, nftl_ecc_verify256 0 6 (768 / 256) ⟨sampleData, sampleCode⟩ 768 = some r) :=
  wrappers_terminate 0 6 ⟨sampleData, sampleCode⟩ 768 (by omega) (by decide)

/-! ## Addressing of the faulty bit -/

theorem byteIndex_high : ∀ a < 256,
    (a &&& 0x80) ||| ((a <<< 1) &&& 0x40) ||| ((a <<< 2) &&& 0x20) ||| ((a <<< 3) &&& 0x10) =
      pk (a.testBit 7) (a.testBit 5) (a.testBit 3) (a.testBit 1) false false false false := by
  decide!

theorem byteIndex_low : ∀ b < 256,
    ((b >>> 4) &&& 0x08) ||| ((b >>> 3) &&& 0x04) ||| ((b >>> 2) &&& 0x02) |||
      ((b >>> 1) &&& 0x01) =
      pk false false false false (b.testBit 7) (b.testBit 5) (b.testBit 3) (b.testBit 1) := by
  decide!

theorem pk_or_halves : ∀ b7 b6 b5 b4 b3 b2 b1 b0 : Bool,
    pk b7 b6 b5 b4 false false false false ||| pk false false false false b3 b2 b1 b0 =
      pk b7 b6 b5 b4 b3 b2 b1 b0 := by decide

theorem bitIndex_bits : ∀ c < 256,
    ((c >>> 5) &&& 0x04) ||| ((c >>> 4) &&& 0x02) ||| ((c >>> 3) &&& 0x01) =
      pk false false false false false (c.testBit 7) (c.testBit 5) (c.testBit 3) := by
  decide!

theorem byteIndex_eq (cc : Nat × Nat × Nat) (h0 : cc.1 < 256) (h1 : cc.2.1 < 256) :
    Verify256.byteIndex cc = oddByteIndex cc := by
  have e : Verify256.byteIndex cc =
      ((cc.1 &&& 0x80) ||| ((cc.1 <<< 1) &&& 0x40) ||| ((cc.1 <<< 2) &&& 0x20) |||
        ((cc.1 <<< 3) &&& 0x10)) |||
      (((cc.2.1 >>> 4) &&& 0x08) ||| ((cc.2.1 >>> 3) &&& 0x04) ||| ((cc.2.1 >>> 2) &&& 0x02) |||
        ((cc.2.1 >>> 1) &&& 0x01)) := by
    simp only [Verify256.byteIndex, Nat.lor_assoc]
  rw [e, byteIndex_high _ h0, byteIndex_low _ h1, pk_or_halves]
  rfl

theorem bitIndex_eq (cc : Nat × Nat × Nat) (h2 : cc.2.2 < 256) :
    Verify256.bitIndex cc = oddBitIndex cc := by
  have e : Verify256.bitIndex cc =
      ((cc.2.2 >>> 5) &&& 0x04) ||| ((cc.2.2 >>> 4) &&& 0x02) ||| ((cc.2.2 >>> 3) &&& 0x01) := rfl
  rw [e, bitIndex_bits _ h2]
  rfl

theorem count_zero : CountBitsInCode256 (0, 0, 0) = 0 := by decide

/-- C14 fails as stated: for the first block of `sampleData` with bit 3 of byte 5
flipped the syndrome is `(0x55, 0x66, 0x68)` of weight 11; `Verify256` flips bit 3 of
byte 5, while bits 7,6,5,4 / 3,2,1,0 of syndrome bytes 0 / 1 give byte 86 and bits 5,4,3
of syndrome byte 2 give bit 5. -/
theorem Verify256_addressing_counterexample :
    Verify256.correctionCode ⟨flipBit sampleData 5 3, sampleCode⟩ 0 0 = (0x55, 0x66, 0x68) ∧
    CountBitsInCode256 (0x55, 0x66, 0x68) = 11 ∧
    Verify256.byteIndex (0x55, 0x66, 0x68) = 5 ∧ specByteIndex (0x55, 0x66, 0x68) = 86 ∧
    Verify256.bitIndex (0x55, 0x66, 0x68) = 3 ∧ specBitIndex (0x55, 0x66, 0x68) = 5 ∧
    (Verify256 ⟨flipBit sampleData 5 3, sampleCode⟩ 0 0).2.data 5 = sampleData 5 ∧
    (Verify256 ⟨flipBit sampleData 5 3, sampleCode⟩ 0 0).2.data 86 =
      flipBit sampleData 5 3 86 := by
  decide!

/-- C14, amended (syndrome-bit addressing). In the single-bit branch of `Verify256`
(syndrome weight 11) the byte offset that is flipped is the 8-bit index whose upper four
bits are bits 7,5,3,1 of syndrome byte 0 and whose lower four bits are bits 7,5,3,1 of
syndrome byte 1, and the bit offset is the 3-bit index formed by bits 7,5,3 of syndrome
byte 2. -/
theorem Verify256_addressing (m : Bufs) (p c : Nat) (hc : IsBytes m.code)
    (h11 : CountBitsInCode256 (Verify256.correctionCode m p c) = 11) :
    Verify256.byteIndex (Verify256.correctionCode m p c) =
      oddByteIndex (Verify256.correctionCode m p c) ∧
    Verify256.bitIndex (Verify256.correctionCode m p c) =
      oddBitIndex (Verify256.correctionCode m p c) ∧
    Verify256 m p c =
      (Hamming_ERROR_SINGLEBIT,
        ⟨Buf.set m.data (p + oddByteIndex (Verify256.correctionCode m p c))
            ((m.data (p + oddByteIndex (Verify256.correctionCode m p c)) ^^^
              (1 <<< oddBitIndex (Verify256.correctionCode m p c))) % 256),
          m.code⟩) := by
  obtain ⟨l0, l1, l2⟩ := correctionCode_lt m p c hc
  have hb := byteIndex_eq _ l0 l1
  have hk := bitIndex_eq _ l2
  have h0 : ¬((Verify256.correctionCode m p c).1 = 0 ∧
      (Verify256.correctionCode m p c).2.1 = 0 ∧ (Verify256.correctionCode m p c).2.2 = 0) := by
    intro h
    have hz : Verify256.correctionCode m p c = (0, 0, 0) := Prod.ext h.1 (Prod.ext h.2.1 h.2.2)
    rw [hz, count_zero] at h11
    omega
  refine ⟨hb, hk, ?_⟩
  rw [Verify256_single m p c h0 h11, hb, hk]

theorem sample_flip_weight :
    CountBitsInCode256 (Verify256.correctionCode ⟨flipBit sampleData 5 3, sampleCode⟩ 0 0)
      = 11 := by decide!

/-- Instance of the amended C14: bit 3 of byte 5 of the first block of `sampleData`. -/
theorem Verify256_addressing_witness :
    Verify256.byteIndex (Verify256.correctionCode ⟨flipBit sampleData 5 3, sampleCode⟩ 0 0) =
      oddByteIndex (Verify256.correctionCode ⟨flipBit sampleData 5 3, sampleCode⟩ 0 0) :=
  (Verify256_addressing ⟨flipBit sampleData 5 3, sampleCode⟩ 0 0 IsBytes_sampleCode
    sample_flip_weight).1

/-! ## The syndrome of one flipped data bit -/

theorem syndrome_line_pairs : ∀ b < 256, ∀ j < 4,
    (rawLine0 (255 - b) b).testBit (2 * j + 1) = !(rawLine0 (255 - b) b).testBit (2 * j) ∧
    (rawLine1 (255 - b) b).testBit (2 * j + 1) = !(rawLine1 (255 - b) b).testBit (2 * j) := by
  decide!

theorem syndrome_line_count : ∀ b < 256,
    bitCount (rawLine0 (255 - b) b) = 4 ∧ bitCount (rawLine1 (255 - b) b) = 4 := by
  decide!

theorem syndrome_column_pairs : ∀ k < 8,
    (∀ j < 3, (rawColumn (1 <<< k)).testBit (2 * j + 3) =
      !(rawColumn (1 <<< k)).testBit (2 * j + 2)) ∧
    (rawColumn (1 <<< k)).testBit 1 = false ∧ (rawColumn (1 <<< k)).testBit 0 = false ∧
    bitCount (rawColumn (1 <<< k)) = 3 := by
  decide!

theorem IsBytes_zero : IsBytes (fun _ => 0) := fun _ => Nat.zero_lt_succ 255

/-- C15 (eleven parity checks per data bit). Flipping bit `k` of byte `b` changes the
code of any block by `syndrome b k`, which does not depend on the data: it has 11 set
bits, exactly one in each of the eight line-parity pairs (bits `2j+1`, `2j` of bytes 0
and 1) and of the three column-parity pairs (bits 7/6, 5/4, 3/2 of byte 2), and its two
padding bits are clear. -/
theorem Compute256_single_bit_syndrome (d d2 : Buf) (p p2 b k : Nat) (hd : IsBytes d)
    (hd2 : IsBytes d2) (hb : b < 256) (hk : k < 8) :
    xor3 (Compute256 (flipBit d (p + b) k) p) (Compute256 d p) = syndrome b k ∧
    xor3 (Compute256 (flipBit d2 (p2 + b) k) p2) (Compute256 d2 p2) = syndrome b k ∧
    bitCount (syndrome b k).1 + bitCount (syndrome b k).2.1 + bitCount (syndrome b k).2.2
      = 11 ∧
    (∀ j, j < 4 →
      (syndrome b k).1.testBit (2 * j + 1) = !(syndrome b k).1.testBit (2 * j)) ∧
    (∀ j, j < 4 →
      (syndrome b k).2.1.testBit (2 * j + 1) = !(syndrome b k).2.1.testBit (2 * j)) ∧
    (∀ j, j < 3 →
      (syndrome b k).2.2.testBit (2 * j + 3) = !(syndrome b k).2.2.testBit (2 * j + 2)) ∧
    (syndrome b k).2.2.testBit 1 = false ∧ (syndrome b k).2.2.testBit 0 = false := by
  obtain ⟨c0, c1⟩ := syndrome_line_count b hb
  obtain ⟨cp, z1, z0, c2⟩ := syndrome_column_pairs k hk
  refine ⟨?_, ?_, ?_, fun j hj => (syndrome_line_pairs b hb j hj).1,
    fun j hj => (syndrome_line_pairs b hb j hj).2, cp, z1, z0⟩
  · rw [Compute256_flipBit d p b k hd hb hk, xor3_cancel]
  · rw [Compute256_flipBit d2 p2 b k hd2 hb hk, xor3_cancel]
  · simp only [syndrome, c0, c1, c2]

/-- Instance of C15: bit 6 of byte 77, in the second block of `sampleData` and in an
all-zero block. -/
theorem Compute256_single_bit_syndrome_witness :
    xor3 (Compute256 (flipBit sampleData (256 + 77) 6) 256) (Compute256 sampleData 256) =
      syndrome 77 6 ∧
    xor3 (Compute256 (flipBit (fun _ => 0) (0 + 77) 6) 0) (Compute256 (fun _ => 0) 0) =
      syndrome 77 6 :=
  ⟨(Compute256_single_bit_syndrome sampleData (fun _ => 0) 256 0 77 6 IsBytes_sampleData
      IsBytes_zero (by decide) (by decide)).1,
    (Compute256_single_bit_syndrome sampleData (fun _ => 0) 256 0 77 6 IsBytes_sampleData
      IsBytes_zero (by decide) (by decide)).2.1⟩

/-! ## The population count -/

theorem CountBitsInByte_loop_eight : ∀ x < 256,
    CountBitsInByte.loop 8 x 0 = some (bitCount x) := by decide!

theorem CountBitsInByte_loop_succ :
    ∀ (fuel byte count r : Nat), CountBitsInByte.loop fuel byte count = some r →
      CountBitsInByte.loop (fuel + 1) byte count = some r
  | 0, byte, count, r, h => by
    simp only [CountBitsInByte.loop] at h ⊢
    by_cases hb : byte > 0
    · rw [if_pos hb] at h
      exact absurd h (by simp)
    · rw [if_neg hb] at h ⊢
      exact h
  | fuel + 1, byte, count, r, h => by
    rw [CountBitsInByte.loop] at h ⊢
    by_cases hb : byte > 0
    · rw [if_pos hb] at h ⊢
      exact CountBitsInByte_loop_succ fuel _ _ r h
    · rw [if_neg hb] at h ⊢
      exact h

theorem CountBitsInByte_loop_more (byte count r : Nat) :
    ∀ (extra fuel : Nat), CountBitsInByte.loop fuel byte count = some r →
      CountBitsInByte.loop (fuel + extra) byte count = some r
  | 0, _, h => h
  | extra + 1, fuel, h =>
    CountBitsInByte_loop_succ (fuel + extra) byte count r
      (CountBitsInByte_loop_more byte count r extra fuel h)

/-- C16 (population count). For a byte value `x` the loop of `CountBitsInByte` ends
within 8 rounds (and gives the same result with any larger fuel) and returns the number
of set bits of `x`, at most 8; for three bytes `CountBitsInCode256` returns the total
number of set bits, at most 24, and the 8-bit result does not wrap. -/
theorem CountBitsInByte_popcount (x : Nat) (t : Nat × Nat × Nat) (hx : x < 256)
    (h0 : t.1 < 256) (h1 : t.2.1 < 256) (h2 : t.2.2 < 256) :
    (∀ fuel, 8 ≤ fuel → CountBitsInByte.loop fuel x 0 = some (bitCount x)) ∧
    CountBitsInByte x = bitCount x ∧ bitCount x ≤ 8 ∧
    CountBitsInCode256 t = bitCount t.1 + bitCount t.2.1 + bitCount t.2.2 ∧
    CountBitsInCode256 t = CountBitsInByte t.1 + CountBitsInByte t.2.1 + CountBitsInByte t.2.2 ∧
    CountBitsInCode256 t ≤ 24 := by
  have a0 := bitCount_le _ h0
  have a1 := bitCount_le _ h1
  have a2 := bitCount_le _ h2
  have hc := CountBitsInCode256_eq t h0 h1 h2
  refine ⟨fun fuel hf => ?_, CountBitsInByte_eq_bitCount x hx, bitCount_le x hx, hc, ?_, ?_⟩
  · have h := CountBitsInByte_loop_more x 0 (bitCount x) (fuel - 8) 8
      (CountBitsInByte_loop_eight x hx)
    have e : 8 + (fuel - 8) = fuel := by omega
    rw [e] at h
    exact h
  · rw [hc, CountBitsInByte_eq_bitCount _ h0, CountBitsInByte_eq_bitCount _ h1,
      CountBitsInByte_eq_bitCount _ h2]
  · omega

/-- Instance of C16: the byte `0xB5` has five set bits; the code `0xFF, 0xFF, 0xFF`
has 24. -/
theorem CountBitsInByte_popcount_witness :
    CountBitsInByte 0xB5 = bitCount 0xB5 ∧ bitCount 0xB5 ≤ 8 ∧
    CountBitsInCode256 (0xFF, 0xFF, 0xFF) ≤ 24 :=
  ⟨(CountBitsInByte_popcount 0xB5 (0xFF, 0xFF, 0xFF) (by decide) (by decide) (by decide)
      (by decide)).2.1,
    (CountBitsInByte_popcount 0xB5 (0xFF, 0xFF, 0xFF) (by decide) (by decide) (by decide)
      (by decide)).2.2.1,
    (CountBitsInByte_popcount 0xB5 (0xFF, 0xFF, 0xFF) (by decide) (by decide) (by decide)
      (by decide)).2.2.2.2.2⟩

/-! ## Two flipped bits anywhere in the codeword -/

theorem Verify256_multi_of_weight (m : Bufs) (p c : Nat)
    (h0 : CountBitsInCode256 (Verify256.correctionCode m p c) ≠ 0)
    (h11 : CountBitsInCode256 (Verify256.correctionCode m p c) ≠ 11)
    (h1 : CountBitsInCode256 (Verify256.correctionCode m p c) ≠ 1) :
    Verify256 m p c = (Hamming_ERROR_MULTIPLEBITS, m) := by
  apply Verify256_multi m p c _ h11 h1
  intro h
  have hz : Verify256.correctionCode m p c = (0, 0, 0) := Prod.ext h.1 (Prod.ext h.2.1 h.2.2)
  rw [hz, count_zero] at h0
  exact h0 rfl

theorem complement_eq_xor : ∀ b < 256, 255 - b = 255 ^^^ b := by decide!

theorem xor_complements (b1 b2 : Nat) (h1 : b1 < 256) (h2 : b2 < 256) :
    (255 - b1) ^^^ (255 - b2) = b1 ^^^ b2 := by
  rw [complement_eq_xor b1 h1, complement_eq_xor b2 h2, Nat.xor_assoc,
    ← Nat.xor_assoc b1, Nat.xor_comm b1 255, Nat.xor_assoc 255 b1, ← Nat.xor_assoc 255 255,
    Nat.xor_self, Nat.zero_xor]

/-- The line part of the XOR of two single-bit syndromes has even weight. -/
theorem double_line_weight : ∀ x < 256,
    (CountBitsInByte (rawLine0 x x) + CountBitsInByte (rawLine1 x x)) % 2 = 0 ∧
    CountBitsInByte (rawLine0 x x) + CountBitsInByte (rawLine1 x x) ≤ 16 := by
  decide!

/-- The column part of the XOR of two single-bit syndromes has even weight. -/
theorem double_column_weight : ∀ k1 < 8, ∀ k2 < 8,
    CountBitsInByte (rawColumn ((1 <<< k1) ^^^ (1 <<< k2))) % 2 = 0 ∧
    CountBitsInByte (rawColumn ((1 <<< k1) ^^^ (1 <<< k2))) ≤ 8 := by
  decide!

theorem syndrome_xor (b1 k1 b2 k2 : Nat) (hb1 : b1 < 256) (hb2 : b2 < 256) :
    xor3 (syndrome b1 k1) (syndrome b2 k2) =
      (rawLine0 (b1 ^^^ b2) (b1 ^^^ b2), rawLine1 (b1 ^^^ b2) (b1 ^^^ b2),
        rawColumn ((1 <<< k1) ^^^ (1 <<< k2))) := by
  simp only [xor3, syndrome, ← rawLine0_xor, ← rawLine1_xor, ← rawColumn_xor,
    xor_complements b1 b2 hb1 hb2]

theorem correctionCode_two_flips (d code : Buf) (p c b1 k1 b2 k2 : Nat) (hd : IsBytes d)
    (hb1 : b1 < 256) (hk1 : k1 < 8) (hb2 : b2 < 256) (hk2 : k2 < 8)
    (hcode : readCode code c = Compute256 d p) :
    Verify256.correctionCode ⟨flipBit (flipBit d (p + b1) k1) (p + b2) k2, code⟩ p c =
      xor3 (syndrome b1 k1) (syndrome b2 k2) := by
  rw [correctionCode_eq]
  simp only
  rw [hcode, Compute256_flipBit _ p b2 k2 (IsBytes_flipBit d _ k1 hd hk1) hb2 hk2,
    Compute256_flipBit d p b1 k1 hd hb1 hk1, xor3_assoc (Compute256 d p), xor3_cancel]

/-- Two distinct flipped data bits are reported as a multiple-bit error. -/
theorem Verify256_two_data_bits (d code : Buf) (p c b1 k1 b2 k2 : Nat) (hd : IsBytes d)
    (hb1 : b1 < 256) (hk1 : k1 < 8) (hb2 : b2 < 256) (hk2 : k2 < 8)
    (hne : ¬(b1 = b2 ∧ k1 = k2)) (hcode : readCode code c = Compute256 d p) :
    Verify256 ⟨flipBit (flipBit d (p + b1) k1) (p + b2) k2, code⟩ p c =
      (Hamming_ERROR_MULTIPLEBITS, ⟨flipBit (flipBit d (p + b1) k1) (p + b2) k2, code⟩) := by
  have hcc := correctionCode_two_flips d code p c b1 k1 b2 k2 hd hb1 hk1 hb2 hk2 hcode
  have hx : b1 ^^^ b2 < 256 := xor_lt_256 hb1 hb2
  obtain ⟨le, lb⟩ := double_line_weight _ hx
  obtain ⟨ce, cb⟩ := double_column_weight k1 hk1 k2 hk2
  have hw : CountBitsInCode256 (xor3 (syndrome b1 k1) (syndrome b2 k2)) % 2 = 0 := by
    rw [syndrome_xor b1 k1 b2 k2 hb1 hb2]
    simp only [CountBitsInCode256]
    omega
  by_cases h0 : (Verify256.correctionCode
      ⟨flipBit (flipBit d (p + b1) k1) (p + b2) k2, code⟩ p c).1 = 0 ∧
      (Verify256.correctionCode ⟨flipBit (flipBit d (p + b1) k1) (p + b2) k2, code⟩ p c).2.1 = 0 ∧
      (Verify256.correctionCode ⟨flipBit (flipBit d (p + b1) k1) (p + b2) k2, code⟩ p c).2.2 = 0
  · rw [hcc] at h0
    exact absurd (syndrome_injective b1 k1 b2 k2 hb1 hk1 hb2 hk2
      (Prod.ext h0.1 (Prod.ext h0.2.1 h0.2.2))) hne
  · apply Verify256_multi _ p c h0
    · rw [hcc]; omega
    · rw [hcc]; omega

theorem readCode_flipBit (code : Buf) (c i j : Nat) (hi : i < 3) :
    readCode (flipBit code (c + i) j) c = flipCodeBit (readCode code c) i j := by
  interval_cases i <;> simp [readCode, flipBit, Buf.set, flipCodeBit]

theorem xor3_flipCodeBit_right (a b : Nat × Nat × Nat) (i j : Nat) :
    xor3 a (flipCodeBit b i j) = flipCodeBit (xor3 a b) i j := by
  unfold flipCodeBit xor3
  split_ifs <;> simp [Nat.xor_assoc]

/-- Flipping one bit of a byte changes its bit count by one. -/
theorem CountBitsInByte_flip : ∀ y < 256, ∀ j < 8,
    CountBitsInByte (y ^^^ (1 <<< j)) = CountBitsInByte y + 1 ∨
    CountBitsInByte (y ^^^ (1 <<< j)) + 1 = CountBitsInByte y := by
  decide!

theorem syndrome_lt (b k : Nat) :
    (syndrome b k).1 < 256 ∧ (syndrome b k).2.1 < 256 ∧ (syndrome b k).2.2 < 256 :=
  ⟨pk_lt _ _ _ _ _ _ _ _, pk_lt _ _ _ _ _ _ _ _, pk_lt _ _ _ _ _ _ _ _⟩

theorem CountBitsInByte_le (x : Nat) : CountBitsInByte x ≤ 8 := by
  have h : CountBitsInByte x = CountBitsInByte (x % 256) := by
    simp only [CountBitsInByte, Nat.mod_mod]
  rw [h, CountBitsInByte_eq_bitCount _ (Nat.mod_lt _ (by decide))]
  exact bitCount_le _ (Nat.mod_lt _ (by decide))

/-- One flipped data bit and one flipped code bit are reported as a multiple-bit error. -/
theorem Verify256_data_and_code_bit (d code : Buf) (p c b k i j : Nat) (hd : IsBytes d)
    (hb : b < 256) (hk : k < 8) (hi : i < 3) (hj : j < 8)
    (hcode : readCode code c = Compute256 d p) :
    Verify256 ⟨flipBit d (p + b) k, flipBit code (c + i) j⟩ p c =
      (Hamming_ERROR_MULTIPLEBITS, ⟨flipBit d (p + b) k, flipBit code (c + i) j⟩) := by
  have hcc : Verify256.correctionCode ⟨flipBit d (p + b) k, flipBit code (c + i) j⟩ p c =
      flipCodeBit (syndrome b k) i j := by
    rw [correctionCode_eq]
    simp only
    rw [readCode_flipBit code c i j hi, hcode, Compute256_flipBit d p b k hd hb hk,
      xor3_flipCodeBit_right, xor3_cancel]
  obtain ⟨_, h11, _, _⟩ := syndrome_spec b k hb hk
  obtain ⟨l0, l1, l2⟩ := syndrome_lt b k
  have f0 := CountBitsInByte_flip _ l0 j hj
  have f1 := CountBitsInByte_flip _ l1 j hj
  have f2 := CountBitsInByte_flip _ l2 j hj
  have b0 := CountBitsInByte_le (syndrome b k).1
  have b1 := CountBitsInByte_le (syndrome b k).2.1
  have b2 := CountBitsInByte_le (syndrome b k).2.2
  simp only [CountBitsInCode256] at h11
  have hw : CountBitsInCode256 (flipCodeBit (syndrome b k) i j) = 10 ∨
      CountBitsInCode256 (flipCodeBit (syndrome b k) i j) = 12 := by
    interval_cases i <;> simp only [flipCodeBit, CountBitsInCode256] <;> simp <;> omega
  apply Verify256_multi_of_weight <;> rw [hcc] <;> omega

theorem two_code_bits : ∀ i1 < 3, ∀ j1 < 8, ∀ i2 < 3, ∀ j2 < 8, (i1 = i2 ∧ j1 = j2) ∨
    CountBitsInCode256 (flipCodeBit (flipCodeBit (0, 0, 0) i1 j1) i2 j2) = 2 := by
  decide!

/-- Two distinct flipped code bits are reported as a multiple-bit error. -/
theorem Verify256_two_code_bits (d code : Buf) (p c i1 j1 i2 j2 : Nat) (hi1 : i1 < 3)
    (hj1 : j1 < 8) (hi2 : i2 < 3) (hj2 : j2 < 8) (hne : ¬(i1 = i2 ∧ j1 = j2))
    (hcode : readCode code c = Compute256 d p) :
    Verify256 ⟨d, flipBit (flipBit code (c + i1) j1) (c + i2) j2⟩ p c =
      (Hamming_ERROR_MULTIPLEBITS, ⟨d, flipBit (flipBit code (c + i1) j1) (c + i2) j2⟩) := by
  have hcc : Verify256.correctionCode ⟨d, flipBit (flipBit code (c + i1) j1) (c + i2) j2⟩ p c =
      flipCodeBit (flipCodeBit (0, 0, 0) i1 j1) i2 j2 := by
    rw [correctionCode_eq]
    simp only
    rw [readCode_flipBit _ c i2 j2 hi2, readCode_flipBit code c i1 j1 hi1, hcode,
      xor3_flipCodeBit_right, xor3_flipCodeBit_right, xor3_self]
  have hw := (two_code_bits i1 hi1 j1 hj1 i2 hi2 j2 hj2).resolve_left hne
  apply Verify256_multi_of_weight <;> rw [hcc] <;> omega

/-- C17 (double-error detection over the whole codeword). If the stored code is
`Compute256` of the block and two distinct bits `q1 ≠ q2` among the 2048 data bits and
the 24 code bits are flipped, `Verify256` returns `Hamming_ERROR_MULTIPLEBITS` and leaves
both buffers as they were passed in. -/
theorem Verify256_detects_any_double_bit (d code : Buf) (p c q1 q2 : Nat) (hd : IsBytes d)
    (hq1 : q1 < 2072) (hq2 : q2 < 2072) (hne : q1 ≠ q2)
    (hcode : readCode code c = Compute256 d p) :
    Verify256 (flipPos (flipPos ⟨d, code⟩ p c q1) p c q2) p c =
      (Hamming_ERROR_MULTIPLEBITS, flipPos (flipPos ⟨d, code⟩ p c q1) p c q2) := by
  by_cases h1 : q1 < 2048
  · by_cases h2 : q2 < 2048
    · simp only [flipPos, if_pos h1, if_pos h2]
      exact Verify256_two_data_bits d code p c (q1 / 8) (q1 % 8) (q2 / 8) (q2 % 8) hd
        (by omega) (by omega) (by omega) (by omega) (by omega) hcode
    · simp only [flipPos, if_pos h1, if_neg h2]
      exact Verify256_data_and_code_bit d code p c (q1 / 8) (q1 % 8) ((q2 - 2048) / 8)
        ((q2 - 2048) % 8) hd (by omega) (by omega) (by omega) (by omega) hcode
  · by_cases h2 : q2 < 2048
    · simp only [flipPos, if_neg h1, if_pos h2]
      exact Verify256_data_and_code_bit d code p c (q2 / 8) (q2 % 8) ((q1 - 2048) / 8)
        ((q1 - 2048) % 8) hd (by omega) (by omega) (by omega) (by omega) hcode
    · simp only [flipPos, if_neg h1, if_neg h2]
      exact Verify256_two_code_bits d code p c ((q1 - 2048) / 8) ((q1 - 2048) % 8)
        ((q2 - 2048) / 8) ((q2 - 2048) % 8) (by omega) (by omega) (by omega) (by omega)
        (by omega) hcode

/-- Instance of C17: data bit 1613 (bit 5 of byte 201) and code bit 2048 + 17 (bit 1 of
code byte 2) of the second block of `sampleData`. -/
theorem Verify256_detects_any_double_bit_witness :
    Verify256 (flipPos (flipPos ⟨sampleData, sampleCode⟩ 256 3 1613) 256 3 2065) 256 3 =
      (Hamming_ERROR_MULTIPLEBITS,
        flipPos (flipPos ⟨sampleData, sampleCode⟩ 256 3 1613) 256 3 2065) :=
  Verify256_detects_any_double_bit sampleData sampleCode 256 3 1613 2065 IsBytes_sampleData
    (by decide) (by decide) (by decide) sampleCode_block1

/-! ## Three flipped data bits -/

theorem xor_xor_eq_left {a b c : Nat} (h : a ^^^ b ^^^ c = a) : b = c := by
  apply xor_eq_zero_imp
  have h2 : a ^^^ (a ^^^ b ^^^ c) = a ^^^ a := by rw [h]
  rw [Nat.xor_assoc, ← Nat.xor_assoc a a, Nat.xor_self, Nat.zero_xor] at h2
  exact h2

theorem xor_xor_eq_mid {a b c : Nat} (h : a ^^^ b ^^^ c = b) : a = c := by
  have e : b ^^^ a ^^^ c = a ^^^ b ^^^ c := by ac_rfl
  exact xor_xor_eq_left (e.trans h)

theorem xor_xor_eq_right {a b c : Nat} (h : a ^^^ b ^^^ c = c) : a = b := by
  have e : c ^^^ a ^^^ b = a ^^^ b ^^^ c := by ac_rfl
  exact xor_xor_eq_left (e.trans h)

theorem xor_lt_8 {a b : Nat} (ha : a < 8) (hb : b < 8) : a ^^^ b < 8 := by
  have h : a ^^^ b < 2 ^ 3 := Nat.xor_lt_two_pow (by omega) (by omega)
  omega

theorem triple_column : ∀ k1 < 8, ∀ k2 < 8, ∀ k3 < 8,
    rawColumn ((1 <<< k1) ^^^ (1 <<< k2) ^^^ (1 <<< k3)) =
      rawColumn (1 <<< (k1 ^^^ k2 ^^^ k3)) := by decide!

/-- The XOR of three single-bit syndromes is the single-bit syndrome of the XOR of the
three positions. -/
theorem syndrome_triple (b1 k1 b2 k2 b3 k3 : Nat) (hb1 : b1 < 256) (hk1 : k1 < 8)
    (hb2 : b2 < 256) (hk2 : k2 < 8) (hb3 : b3 < 256) (hk3 : k3 < 8) :
    xor3 (xor3 (syndrome b1 k1) (syndrome b2 k2)) (syndrome b3 k3) =
      syndrome (b1 ^^^ b2 ^^^ b3) (k1 ^^^ k2 ^^^ k3) := by
  have h12 : b1 ^^^ b2 < 256 := xor_lt_256 hb1 hb2
  have h123 : b1 ^^^ b2 ^^^ b3 < 256 := xor_lt_256 h12 hb3
  have hc : (b1 ^^^ b2) ^^^ (255 - b3) = 255 - (b1 ^^^ b2 ^^^ b3) := by
    rw [complement_eq_xor b3 hb3, complement_eq_xor _ h123, ← Nat.xor_assoc,
      Nat.xor_comm (b1 ^^^ b2) 255, Nat.xor_assoc]
  rw [syndrome_xor b1 k1 b2 k2 hb1 hb2]
  simp only [xor3, syndrome, ← rawLine0_xor, ← rawLine1_xor, ← rawColumn_xor, hc,
    triple_column k1 hk1 k2 hk2 k3 hk3]

theorem flipBit_testBit (d : Buf) (a k x j : Nat) :
    (flipBit d a k x).testBit j = xor ((d x).testBit j) (decide (x = a ∧ j = k)) := by
  by_cases h : x = a
  · subst h
    rw [flipBit_same, Nat.testBit_xor, Nat.one_shiftLeft, Nat.testBit_two_pow]
    by_cases hj : k = j
    · subst hj; simp
    · have h2 : ¬j = k := fun e => hj e.symm
      simp [hj, h2]
  · rw [flipBit_other d a k x h]
    simp [h]

theorem Buf_set_eq_flipBit (d : Buf) (a k : Nat) (hd : IsBytes d) (hk : k < 8) :
    Buf.set d a ((d a ^^^ (1 <<< k)) % 256) = flipBit d a k := by
  unfold flipBit
  rw [Nat.mod_eq_of_lt (xor_lt_256 (hd a) (bit_lt_256 k hk))]

theorem xor_four : ∀ t e1 e2 e3 e4 : Bool, (e1 && e2) = false → (e1 && e3) = false →
    (e1 && e4) = false → (e2 && e3) = false → (e2 && e4) = false → (e3 && e4) = false →
    xor (xor (xor (xor t e1) e2) e3) e4 = xor t (e1 || e2 || e3 || e4) := by decide

theorem decide_exclusive (x j a1 k1 a2 k2 : Nat) (h : ¬(a1 = a2 ∧ k1 = k2)) :
    (decide (x = a1 ∧ j = k1) && decide (x = a2 ∧ j = k2)) = false := by
  by_cases h1 : x = a1 ∧ j = k1
  · have h2 : ¬(x = a2 ∧ j = k2) := fun h2 => h ⟨h1.1.symm.trans h2.1, h1.2.symm.trans h2.2⟩
    simp [h2]
  · simp [h1]

/-- C18 (triple-bit miscorrection). If the stored code is `Compute256` of the block `d`
and three pairwise distinct data bits are flipped, `Verify256` returns
`Hamming_ERROR_SINGLEBIT` and flips a fourth data bit `(b4, k4)` distinct from the three,
so that the buffer then differs from `d` in exactly these four bits; a second
`Verify256` of that buffer against the same code returns 0. -/
theorem Verify256_triple_bit (d code : Buf) (p c b1 k1 b2 k2 b3 k3 : Nat) (hd : IsBytes d)
    (hb1 : b1 < 256) (hk1 : k1 < 8) (hb2 : b2 < 256) (hk2 : k2 < 8) (hb3 : b3 < 256)
    (hk3 : k3 < 8) (h12 : ¬(b1 = b2 ∧ k1 = k2)) (h13 : ¬(b1 = b3 ∧ k1 = k3))
    (h23 : ¬(b2 = b3 ∧ k2 = k3)) (hcode : readCode code c = Compute256 d p) :
    ∃ b4 k4, b4 < 256 ∧ k4 < 8 ∧ ¬(b4 = b1 ∧ k4 = k1) ∧ ¬(b4 = b2 ∧ k4 = k2) ∧
      ¬(b4 = b3 ∧ k4 = k3) ∧
      Verify256 ⟨flipBit (flipBit (flipBit d (p + b1) k1) (p + b2) k2) (p + b3) k3, code⟩ p c =
        (Hamming_ERROR_SINGLEBIT,
          ⟨flipBit (flipBit (flipBit (flipBit d (p + b1) k1) (p + b2) k2) (p + b3) k3)
            (p + b4) k4, code⟩) ∧
      (∀ a j,
        (flipBit (flipBit (flipBit (flipBit d (p + b1) k1) (p + b2) k2) (p + b3) k3)
            (p + b4) k4 a).testBit j =
          xor ((d a).testBit j)
            (decide (a = p + b1 ∧ j = k1) || decide (a = p + b2 ∧ j = k2) ||
              decide (a = p + b3 ∧ j = k3) || decide (a = p + b4 ∧ j = k4))) ∧
      Verify256
          ⟨flipBit (flipBit (flipBit (flipBit d (p + b1) k1) (p + b2) k2) (p + b3) k3)
            (p + b4) k4, code⟩ p c =
        (0, ⟨flipBit (flipBit (flipBit (flipBit d (p + b1) k1) (p + b2) k2) (p + b3) k3)
            (p + b4) k4, code⟩) := by
  have hd1 := IsBytes_flipBit d (p + b1) k1 hd hk1
  have hd2 := IsBytes_flipBit _ (p + b2) k2 hd1 hk2
  have hd3 := IsBytes_flipBit _ (p + b3) k3 hd2 hk3
  have hb4 : b1 ^^^ b2 ^^^ b3 < 256 := xor_lt_256 (xor_lt_256 hb1 hb2) hb3
  have hk4 : k1 ^^^ k2 ^^^ k3 < 8 := xor_lt_8 (xor_lt_8 hk1 hk2) hk3
  have n1 : ¬(b1 ^^^ b2 ^^^ b3 = b1 ∧ k1 ^^^ k2 ^^^ k3 = k1) :=
    fun h => h23 ⟨xor_xor_eq_left h.1, xor_xor_eq_left h.2⟩
  have n2 : ¬(b1 ^^^ b2 ^^^ b3 = b2 ∧ k1 ^^^ k2 ^^^ k3 = k2) :=
    fun h => h13 ⟨xor_xor_eq_mid h.1, xor_xor_eq_mid h.2⟩
  have n3 : ¬(b1 ^^^ b2 ^^^ b3 = b3 ∧ k1 ^^^ k2 ^^^ k3 = k3) :=
    fun h => h12 ⟨xor_xor_eq_right h.1, xor_xor_eq_right h.2⟩
  have hC3 : Compute256 (flipBit (flipBit (flipBit d (p + b1) k1) (p + b2) k2) (p + b3) k3) p =
      xor3 (Compute256 d p) (syndrome (b1 ^^^ b2 ^^^ b3) (k1 ^^^ k2 ^^^ k3)) := by
    rw [Compute256_flipBit _ p b3 k3 hd2 hb3 hk3, Compute256_flipBit _ p b2 k2 hd1 hb2 hk2,
      Compute256_flipBit d p b1 k1 hd hb1 hk1, xor3_assoc (Compute256 d p) (syndrome b1 k1),
      xor3_assoc (Compute256 d p), syndrome_triple b1 k1 b2 k2 b3 k3 hb1 hk1 hb2 hk2 hb3 hk3]
  have hcc : Verify256.correctionCode
      ⟨flipBit (flipBit (flipBit d (p + b1) k1) (p + b2) k2) (p + b3) k3, code⟩ p c =
      syndrome (b1 ^^^ b2 ^^^ b3) (k1 ^^^ k2 ^^^ k3) := by
    rw [correctionCode_eq]
    simp only
    rw [hcode, hC3, xor3_cancel]
  obtain ⟨s0, s11, sbyte, sbit⟩ := syndrome_spec _ _ hb4 hk4
  refine ⟨b1 ^^^ b2 ^^^ b3, k1 ^^^ k2 ^^^ k3, hb4, hk4, n1, n2, n3, ?_, ?_, ?_⟩
  · rw [Verify256_single _ p c (by rw [hcc]; exact s0) (by rw [hcc]; exact s11), hcc, sbyte,
      sbit]
    simp only
    rw [Buf_set_eq_flipBit _ _ _ hd3 hk4]
  · intro a j
    rw [flipBit_testBit, flipBit_testBit, flipBit_testBit, flipBit_testBit]
    exact xor_four _ _ _ _ _
      (decide_exclusive a j (p + b1) k1 (p + b2) k2 (fun h => h12 ⟨by omega, h.2⟩))
      (decide_exclusive a j (p + b1) k1 (p + b3) k3 (fun h => h13 ⟨by omega, h.2⟩))
      (decide_exclusive a j (p + b1) k1 _ _ (fun h => n1 ⟨by omega, h.2.symm⟩))
      (decide_exclusive a j (p + b2) k2 (p + b3) k3 (fun h => h23 ⟨by omega, h.2⟩))
      (decide_exclusive a j (p + b2) k2 _ _ (fun h => n2 ⟨by omega, h.2.symm⟩))
      (decide_exclusive a j (p + b3) k3 _ _ (fun h => n3 ⟨by omega, h.2.symm⟩))
  · apply Verify256_zero
    rw [correctionCode_eq]
    simp only
    rw [hcode, Compute256_flipBit _ p _ _ hd3 hb4 hk4, hC3,
      xor3_assoc (Compute256 d p) (syndrome _ _) (syndrome _ _), xor3_self, xor3_zero,
      xor3_self]

/-- Instance of C18: bits (3, 0), (3, 1) and (200, 7) of the first block of
`sampleData`. -/
theorem Verify256_triple_bit_witness :
    ∃ b4 k4, b4 < 256 ∧ k4 < 8 ∧
      Verify256 ⟨flipBit (flipBit (flipBit sampleData (0 + 3) 0) (0 + 3) 1) (0 + 200) 7,
          sampleCode⟩ 0 0 =
        (Hamming_ERROR_SINGLEBIT,
          ⟨flipBit (flipBit (flipBit (flipBit sampleData (0 + 3) 0) (0 + 3) 1) (0 + 200) 7)
            (0 + b4) k4, sampleCode⟩) := by
  obtain ⟨b4, k4, h1, h2, _, _, _, h3, _⟩ :=
    Verify256_triple_bit sampleData sampleCode 0 0 3 0 3 1 200 7 IsBytes_sampleData
      (by decide) (by decide) (by decide) (by decide) (by decide) (by decide) (by decide)
      (by decide) (by decide) sampleCode_block0
  exact ⟨b4, k4, h1, h2, h3⟩

/-! ## Data left behind by `nftl_ecc_verify256` on a hard failure -/

theorem Verify256_data_congr (m1 m2 : Bufs) (p c : Nat)
    (hd : ∀ i, i < 256 → m2.data (p + i) = m1.data (p + i)) (hc : m2.code = m1.code) :
    ∀ i, i < 256 → (Verify256 m2 p c).2.data (p + i) = (Verify256 m1 p c).2.data (p + i) := by
  have hcc : Verify256.correctionCode m2 p c = Verify256.correctionCode m1 p c := by
    simp only [Verify256.correctionCode, Compute256_congr _ _ p hd, hc]
  intro i hi
  unfold Verify256
  rw [hcc]
  dsimp only
  split_ifs
  · exact hd i hi
  · simp only [Buf.set]
    rw [hd _ (byteIndex_lt _)]
    split_ifs
    · rfl
    · exact hd i hi
  · exact hd i hi
  · exact hd i hi

theorem Verify256_single_bits (m : Bufs) (p c : Nat) (hd : IsBytes m.data)
    (h : (Verify256 m p c).1 = Hamming_ERROR_SINGLEBIT) :
    ∃ byte, byte < 256 ∧ ∃ bit, bit < 8 ∧ ∀ a t,
      ((Verify256 m p c).2.data a).testBit t =
        xor ((m.data a).testBit t) (decide (a = p + byte ∧ t = bit)) := by
  rcases Verify256_cases m p c with ⟨hr, _⟩ | ⟨_, byte, hbyte, bit, hbit, hm⟩
  · exact absurd h hr
  · refine ⟨byte, hbyte, bit, hbit, fun a t => ?_⟩
    rw [hm]
    simp only [Buf.set]
    by_cases ha : a = p + byte
    · subst ha
      rw [if_pos rfl, testBit_flip _ _ _ (hd _) hbit]
      simp
    · rw [if_neg ha]
      simp [ha]

theorem Verify256_not_single (m : Bufs) (p c : Nat)
    (h : (Verify256 m p c).1 ≠ Hamming_ERROR_SINGLEBIT) : (Verify256 m p c).2 = m := by
  rcases Verify256_cases m p c with ⟨_, hm⟩ | ⟨hr, _⟩
  · exact hm
  · exact absurd hr h

theorem ScanInv_refl (m : Bufs) : ScanInv m m 0 :=
  ⟨rfl, fun _ _ => rfl, fun i hi => absurd hi (Nat.not_lt_zero i)⟩

theorem ScanInv_step (m m1 : Bufs) (j : Nat) (h : ScanInv m m1 j) :
    ScanInv m (Verify256 m1 (256 * j) (3 * j)).2 (j + 1) ∧
    (Verify256 m1 (256 * j) (3 * j)).1 = blockClass m j := by
  obtain ⟨hcode, hrest, hdone⟩ := h
  obtain ⟨hc, ho⟩ := Verify256_outside m1 (256 * j) (3 * j)
  have hblock : ∀ i, i < 256 → m1.data (256 * j + i) = m.data (256 * j + i) :=
    fun i _ => hrest _ (by omega)
  refine ⟨⟨hc.trans hcode, fun x hx => ?_, fun i hi x hx1 hx2 => ?_⟩, ?_⟩
  · rw [ho x (by omega)]
    exact hrest x (by omega)
  · by_cases hij : i = j
    · subst hij
      have hx : x = 256 * i + (x - 256 * i) := by omega
      rw [hx]
      exact Verify256_data_congr m m1 _ _ hblock hcode _ (by omega)
    · rw [ho x (by omega)]
      exact hdone i (by omega) x hx1 hx2
  · exact Verify256_fst_congr m m1 _ _ hblock hcode

/-- The scan stops at the first block that classifies as 2 or 3 and leaves the buffers in
the state described by `ScanInv`. -/
theorem scan_hard_inv (EOK ECORR : Int) (m : Bufs) :
    ∀ (t j0 : Nat) (m1 : Bufs) (result : Int) (fuel k : Nat), t + 1 ≤ fuel → t < k →
      256 * (j0 + k) < 4294967296 → ScanInv m m1 j0 →
      (∀ i, j0 ≤ i → i < j0 + t → blockClass m i = 0 ∨ blockClass m i = 1) →
      (blockClass m (j0 + t) = 2 ∨ blockClass m (j0 + t) = 3) →
      ∃ m2, nftl_ecc_verify256.loop EOK ECORR fuel m1 (256 * j0) (256 * k) (3 * j0) result =
          some ((blockClass m (j0 + t) : Int), m2) ∧ ScanInv m m2 (j0 + t)
  | _, _, _, _, 0, _, hf, _, _, _, _, _ => by omega
  | 0, j0, m1, result, fuel + 1, k, _, hk, _, hinv, _, hhard => by
    obtain ⟨_, hcl⟩ := ScanInv_step m m1 j0 hinv
    simp only [Nat.add_zero] at hhard ⊢
    rw [← hcl] at hhard ⊢
    have hns : (Verify256 m1 (256 * j0) (3 * j0)).1 ≠ Hamming_ERROR_SINGLEBIT := by
      rcases hhard with h | h <;> rw [h] <;> decide
    refine ⟨_, loop_step_hard EOK ECORR fuel m1 _ _ _ result (by omega) hhard, ?_⟩
    rw [Verify256_not_single m1 _ _ hns]
    exact hinv
  | t + 1, j0, m1, result, fuel + 1, k, hf, hk, hsz, hinv, hsoft, hhard => by
    obtain ⟨hinv2, hcl⟩ := ScanInv_step m m1 j0 hinv
    have hsize : (256 * k + 4294967296 - 256) % 4294967296 = 256 * (k - 1) := by omega
    have hd : 256 * j0 + 256 = 256 * (j0 + 1) := by omega
    have hc : 3 * j0 + 3 = 3 * (j0 + 1) := by omega
    have hjt : j0 + (t + 1) = j0 + 1 + t := by omega
    rw [hjt] at hhard ⊢
    rcases hsoft j0 (Nat.le_refl _) (by omega) with h0 | h1
    · obtain ⟨m2, hrun, hfin⟩ := scan_hard_inv EOK ECORR m t (j0 + 1) _ result fuel (k - 1)
        (by omega) (by omega) (by omega) hinv2
        (fun i hi1 hi2 => hsoft i (by omega) (by omega)) hhard
      refine ⟨m2, ?_, hfin⟩
      rw [loop_step_zero EOK ECORR fuel m1 _ _ _ result (by omega) (hcl.trans h0), hsize, hd, hc]
      exact hrun
    · obtain ⟨m2, hrun, hfin⟩ := scan_hard_inv EOK ECORR m t (j0 + 1) _ 1 fuel (k - 1)
        (by omega) (by omega) (by omega) hinv2
        (fun i hi1 hi2 => hsoft i (by omega) (by omega)) hhard
      refine ⟨m2, ?_, hfin⟩
      rw [loop_step_single EOK ECORR fuel m1 _ _ _ result (by omega) (hcl.trans h1), hsize, hd,
        hc]
      exact hrun

/-- C19 (wrapper mutation frame on hard failure). If block `j` is the first block that
classifies as `Hamming_ERROR_ECC` or `Hamming_ERROR_MULTIPLEBITS`, `nftl_ecc_verify256`
returns that classification and afterwards every block before `j` that classified as
`Hamming_ERROR_SINGLEBIT` differs from its input in exactly one bit, every block before
`j` that classified as 0 is unchanged, and block `j`, all later data and the codes are
unchanged. -/
theorem nftl_ecc_verify256_frame (RT_MTD_EOK RT_MTD_EECC_CORRECT : Int) (m : Bufs)
    (n j : Nat) (hd : IsBytes m.data) (hsize : 256 * n < 4294967296) (hj : j < n)
    (hhard : blockClass m j = Hamming_ERROR_ECC ∨ blockClass m j = Hamming_ERROR_MULTIPLEBITS)
    (hfirst : ∀ i, i < j →
      ¬(blockClass m i = Hamming_ERROR_ECC ∨ blockClass m i = Hamming_ERROR_MULTIPLEBITS))
    (fuel : Nat) (hfuel : j + 1 ≤ fuel) :
    ∃ m2, nftl_ecc_verify256 RT_MTD_EOK RT_MTD_EECC_CORRECT fuel m (256 * n) =
        some ((blockClass m j : Int), m2) ∧
      (∀ i, i < j → blockClass m i = Hamming_ERROR_SINGLEBIT →
        ∃ byte, byte < 256 ∧ ∃ bit, bit < 8 ∧ ∀ x, 256 * i ≤ x → x < 256 * (i + 1) → ∀ t,
          (m2.data x).testBit t =
            xor ((m.data x).testBit t) (decide (x = 256 * i + byte ∧ t = bit))) ∧
      (∀ i, i < j → blockClass m i = 0 →
        ∀ x, 256 * i ≤ x → x < 256 * (i + 1) → m2.data x = m.data x) ∧
      (∀ x, 256 * j ≤ x → m2.data x = m.data x) ∧ m2.code = m.code := by
  rw [wrapper_eq _ _ fuel m n hsize]
  obtain ⟨m2, hrun, hcode, hrest, hdone⟩ :=
    scan_hard_inv RT_MTD_EOK RT_MTD_EECC_CORRECT m j 0 m 0 fuel n hfuel hj (by omega)
      (ScanInv_refl m) (fun i _ hi => blockClass_soft m i (hfirst i (by omega)))
      (by rw [Nat.zero_add]; exact hhard)
  rw [Nat.zero_add] at hrun hrest hdone
  refine ⟨m2, hrun, fun i hi hcl => ?_, fun i hi hcl x hx1 hx2 => ?_, hrest, hcode⟩
  · obtain ⟨byte, hbyte, bit, hbit, hbits⟩ := Verify256_single_bits m (256 * i) (3 * i) hd hcl
    refine ⟨byte, hbyte, bit, hbit, fun x hx1 hx2 t => ?_⟩
    rw [hdone i hi x hx1 hx2]
    exact hbits x t
  · rw [hdone i hi x hx1 hx2, Verify256_not_single m _ _ (by
      have h : (Verify256 m (256 * i) (3 * i)).1 = 0 := hcl
      rw [h]; decide)]

theorem frame_sample_blocks :
    blockClass ⟨flipBit sampleData 5 3, damagedCode⟩ 1 = Hamming_ERROR_ECC ∧
    ∀ i, i < 1 → ¬(blockClass ⟨flipBit sampleData 5 3, damagedCode⟩ i = Hamming_ERROR_ECC ∨
      blockClass ⟨flipBit sampleData 5 3, damagedCode⟩ i = Hamming_ERROR_MULTIPLEBITS) := by
  decide!

/-- Instance of C19: one flipped bit in the first block and a damaged code of the second
block; the wrapper returns `Hamming_ERROR_ECC` and leaves the second and third block
and the codes as they were. -/
theorem nftl_ecc_verify256_frame_witness :
    ∃ m2, nftl_ecc_verify256 0 6 2 ⟨flipBit sampleData 5 3, damagedCode⟩ (256 * 3) =
        some ((blockClass ⟨flipBit sampleData 5 3, damagedCode⟩ 1 : Int), m2) ∧
      (∀ x, 256 * 1 ≤ x → m2.data x = flipBit sampleData 5 3 x) ∧ m2.code = damagedCode := by
  obtain ⟨m2, h1, _, _, h2, h3⟩ :=
    nftl_ecc_verify256_frame 0 6 ⟨flipBit sampleData 5 3, damagedCode⟩ 3 1
      (IsBytes_flipBit sampleData 5 3 IsBytes_sampleData (by decide)) (by omega) (by decide)
      (Or.inl frame_sample_blocks.1) frame_sample_blocks.2 2 (by decide)
  exact ⟨m2, h1, h2, h3⟩

/-! ## Linearity of the code in the data -/

theorem byteBitsXor_xor (x y : Nat) :
    byteBitsXor (x ^^^ y) = xor (byteBitsXor x) (byteBitsXor y) := by
  unfold byteBitsXor
  rw [← bxorFold_xor]
  congr 1
  funext k
  rw [Nat.testBit_xor]

theorem oddByte_xor (x y : Nat) (hx : x < 256) (hy : y < 256) :
    oddByte (x ^^^ y) = xor (oddByte x) (oddByte y) := by
  rw [oddByte_eq_byteBitsXor _ (xor_lt_256 hx hy), oddByte_eq_byteBitsXor _ hx,
    oddByte_eq_byteBitsXor _ hy, byteBitsXor_xor]

theorem xorFold_xor (f g : Nat → Nat) :
    ∀ n, xorFold (fun i => f i ^^^ g i) n = xorFold f n ^^^ xorFold g n
  | 0 => by simp [xorFold]
  | n + 1 => by
    simp only [xorFold, xorFold_xor f g n]
    ac_rfl

theorem IsBytes_xorBuf (a b : Buf) (ha : IsBytes a) (hb : IsBytes b) : IsBytes (xorBuf a b) :=
  fun x => xor_lt_256 (ha x) (hb x)

theorem lines_xorBuf (a b : Buf) (p : Nat) (ha : IsBytes a) (hb : IsBytes b) :
    Compute256.lines (xorBuf a b) p =
      ⟨(Compute256.lines a p).columnSum ^^^ (Compute256.lines b p).columnSum,
       (Compute256.lines a p).evenLineCode ^^^ (Compute256.lines b p).evenLineCode,
       (Compute256.lines a p).oddLineCode ^^^ (Compute256.lines b p).oddLineCode⟩ := by
  rw [lines_eq, lines_eq, lines_eq]
  simp only
  rw [← xorFold_xor, ← xorFold_xor, ← xorFold_xor]
  congr 1
  · exact xorFold_congr _ _ 256 fun i _ => by
      simp only [evenTerm, xorBuf, oddByte_xor _ _ (ha _) (hb _), cond_xor]
  · exact xorFold_congr _ _ 256 fun i _ => by
      simp only [oddTerm, xorBuf, oddByte_xor _ _ (ha _) (hb _), cond_xor]

theorem invert_xor (r1 r2 : Nat) :
    255 ^^^ (r1 ^^^ r2) = ((255 ^^^ r1) ^^^ (255 ^^^ r2)) ^^^ 255 := by
  have h : ((255 ^^^ r1) ^^^ (255 ^^^ r2)) ^^^ 255 = (255 ^^^ 255) ^^^ (255 ^^^ (r1 ^^^ r2)) := by
    ac_rfl
  rw [h, Nat.xor_self, Nat.zero_xor]

/-- `Compute256` reads the block through the pointer only. -/
theorem Compute256_shift (d : Buf) (p : Nat) :
    Compute256 (fun i => d (p + i)) 0 = Compute256 d p := by
  have hl : Compute256.lines (fun i => d (p + i)) 0 = Compute256.lines d p := by
    have h1 : xorFold (fun i => (fun i => d (p + i)) (0 + i)) 256 =
        xorFold (fun i => d (p + i)) 256 :=
      xorFold_congr _ _ 256 fun i _ => by simp only [Nat.zero_add]
    have h2 : xorFold (evenTerm (fun i => d (p + i)) 0) 256 = xorFold (evenTerm d p) 256 :=
      xorFold_congr _ _ 256 fun i _ => by simp only [evenTerm, Nat.zero_add]
    have h3 : xorFold (oddTerm (fun i => d (p + i)) 0) 256 = xorFold (oddTerm d p) 256 :=
      xorFold_congr _ _ 256 fun i _ => by simp only [oddTerm, Nat.zero_add]
    rw [lines_eq, lines_eq, h1, h2, h3]
  unfold Compute256
  rw [hl]

theorem Compute256_zero_at_origin : Compute256 (fun _ => 0) 0 = (255, 255, 255) := by
  decide!

theorem Compute256_zero (p : Nat) : Compute256 (fun _ => 0) p = (255, 255, 255) := by
  rw [← Compute256_shift]
  exact Compute256_zero_at_origin

/-- C20 (linearity of the code). For blocks `a` and `b`,
`Compute256 (a XOR b) = Compute256 a XOR Compute256 b XOR (0xFF, 0xFF, 0xFF)` bytewise;
equivalently the un-inverted code `Compute256 d XOR (0xFF, 0xFF, 0xFF)` is additive in the
data and is `(0, 0, 0)` for the all-zero block. -/
theorem Compute256_linear (a b : Buf) (p : Nat) (ha : IsBytes a) (hb : IsBytes b) :
    Compute256 (xorBuf a b) p =
      xor3 (xor3 (Compute256 a p) (Compute256 b p)) (0xFF, 0xFF, 0xFF) ∧
    xor3 (Compute256 (xorBuf a b) p) (0xFF, 0xFF, 0xFF) =
      xor3 (xor3 (Compute256 a p) (0xFF, 0xFF, 0xFF))
        (xor3 (Compute256 b p) (0xFF, 0xFF, 0xFF)) ∧
    xor3 (Compute256 (fun _ => 0) p) (0xFF, 0xFF, 0xFF) = (0, 0, 0) := by
  have h1 : Compute256 (xorBuf a b) p =
      xor3 (xor3 (Compute256 a p) (Compute256 b p)) (0xFF, 0xFF, 0xFF) := by
    rw [Compute256_eq _ p (IsBytes_xorBuf a b ha hb), Compute256_eq a p ha,
      Compute256_eq b p hb, lines_xorBuf a b p ha hb]
    simp only [xor3, rawLine0_xor, rawLine1_xor, rawColumn_xor, invert_xor]
  refine ⟨h1, ?_, ?_⟩
  · rw [h1]
    simp only [xor3, Prod.mk.injEq]
    refine ⟨?_, ?_, ?_⟩ <;>
    · rw [Nat.xor_assoc _ 255 255, Nat.xor_self, Nat.xor_zero]
      have h : ∀ x y : Nat, (x ^^^ 255) ^^^ (y ^^^ 255) = (x ^^^ y) ^^^ (255 ^^^ 255) :=
        fun x y => by ac_rfl
      rw [h, Nat.xor_self, Nat.xor_zero]
  · rw [Compute256_zero, xor3_self]

/-- Instance of C20: the first block of `sampleData` XOR the all-zero block with bit 3 of
byte 5 set. -/
theorem Compute256_linear_witness :
    Compute256 (xorBuf sampleData (flipBit (fun _ => 0) 5 3)) 0 =
      xor3 (xor3 (Compute256 sampleData 0) (Compute256 (flipBit (fun _ => 0) 5 3) 0))
        (0xFF, 0xFF, 0xFF) :=
  (Compute256_linear sampleData (flipBit (fun _ => 0) 5 3) 0 IsBytes_sampleData
    (IsBytes_flipBit _ 5 3 IsBytes_zero (by decide))).1

end NftlEcc
